import Mathlib

/-!
# The `Tree` component of `src/Tree.jsx`

A shallow embedding of the state engine of the `Tree` React component: its
state object, its instance fields (`dragNode`, `delayedDragEnterLogic`), the
host timer queue used by `setTimeout` / `clearTimeout`, and its event
handlers.  Every handler is a pure function from the component before the
event to the component after it, together with the list of callbacks it
invoked, in order.

Conventions.

* Keys are strings.  A position path is kept as its sequence of sibling
  indices.
* `setState` merges a partial state object into the state.  React calls
  `getDerivedStateFromProps` again before the next render; that step is the
  separate function `Component.rerender`.
* An array-valued prop carries the address of the array, because the code
  compares props with `!==` (reference comparison).
* The helpers imported from `./util` are not part of `Tree.jsx`.  Those on
  whose result a property depends are modelled from the specification and
  marked so; the others are parameters collected in `Util`.
* `keyEntities` and the props are plain objects: reading a name from them also
  finds the members inherited from `Object.prototype`.
* The model is typed: a state slot that `Tree.jsx` always fills with an array
  is a list.  Where the code would store `undefined` in such a slot (a
  controlled prop was removed), `getDerivedStateFromProps` returns `none`.
-/

namespace Tree

/-! ## Data model -/

/-- A node key. -/
abbrev Key := String

/-- A position path: the sibling indices from the root down to the node. -/
abbrev Pos := List Nat

/-- A node of the forest handed to the component: an optional explicit key and
its ordered children. -/
inductive TreeNode where
  | mk (key : Option Key) (children : List TreeNode)

/-- The string form of a position path, `0-1-2`; it is the key of a node that
has no explicit key (`child.key || pos` in `renderTreeNode`). -/
def posKey (pos : Pos) : Key := "-".intercalate (pos.map toString)

/-- The props of a rendered row, as read by the handlers from `node.props`. -/
structure NodeProps where
  eventKey : Key
  pos : Pos
  children : List TreeNode := []
  selected : Bool := false
  expanded : Bool := false

/-- One entry of the entity maps. -/
structure Entity where
  key : Key
  pos : Pos
  level : Nat
  parent : Option Key
  children : List Key
  node : TreeNode

/-- The object `keyEntities`: key to entity. -/
abbrev KeyEntities := List (Key × Entity)

/-- The object `posEntities`: position path to entity. -/
abbrev PosEntities := List (Pos × Entity)

/-- One row of the visible list. -/
structure KeyLevel where
  key : Key
  level : Nat
deriving DecidableEq, Repr

/-- A JavaScript number that is an integer or `NaN` (`none`). -/
abbrev JSNum := Option Int

/-- The state slot `dropPosition`: absent, `null`, or a number. -/
inductive DropPos where
  | undefined
  | null
  | num (n : Int)
deriving DecidableEq, Repr

/-- An array-valued prop together with the address of the array. -/
structure Ref (α : Type) where
  addr : Nat
  val : α

/-- The prop `checkedKeys`: an array of keys or an object
`{checked, halfChecked}`. -/
inductive CheckedKeysProp where
  | keys (l : List Key)
  | obj (checked halfChecked : List Key)

/-- The pointer event handed to the drag handlers, reduced to what the drop
position depends on: the vertical offset of the pointer within the target row
and the height of that row. -/
structure Event where
  pointerOffset : Int
  targetHeight : Int
deriving DecidableEq, Repr

/-- The props of the component that the state engine reads.  A callback prop
is represented by whether it is supplied. -/
structure Props where
  treeData : Option (Ref (List TreeNode)) := none
  children : Option (Ref (List TreeNode)) := none
  selectable : Bool := true
  multiple : Bool := false
  checkable : Bool := false
  checkStrictly : Bool := false
  defaultExpandParent : Bool := true
  autoExpandParent : Bool := false
  defaultExpandAll : Bool := false
  defaultExpandedKeys : List Key := []
  expandedKeys : Option (Ref (List Key)) := none
  defaultCheckedKeys : List Key := []
  checkedKeys : Option (Ref CheckedKeysProp) := none
  defaultSelectedKeys : List Key := []
  selectedKeys : Option (Ref (List Key)) := none
  loadedKeys : Option (Ref (List Key)) := none
  loadData : Bool := false
  onExpand : Bool := false
  onCheck : Bool := false
  onSelect : Bool := false
  onLoad : Bool := false
  onDragStart : Bool := false
  onDragEnter : Bool := false
  onDragOver : Bool := false
  onDragLeave : Bool := false
  onDragEnd : Bool := false
  onDrop : Bool := false

/-- The names of the members of `Object.prototype`.  Every plain object inherits
them: a lookup `object[name]` yields the inherited function (for `__proto__`
the prototype itself), which is truthy, and `name in object` is true. -/
def objectPrototypeNames : List String :=
  ["constructor", "hasOwnProperty", "isPrototypeOf", "propertyIsEnumerable", "toLocaleString",
   "toString", "valueOf", "__proto__", "__defineGetter__", "__defineSetter__",
   "__lookupGetter__", "__lookupSetter__"]

/-- The test `name in this.props`, for the names the state engine asks about.
The names of `defaultProps` and the inherited names are always present; another
name that is not a prop of the component (`halfCheckedKeys`,
`internalVisibleKeyLevels`, ...) is absent. -/
def Props.has (p : Props) (name : String) : Bool :=
  if name = "treeData" then p.treeData.isSome
  else if name = "children" then p.children.isSome
  else if name = "expandedKeys" then p.expandedKeys.isSome
  else if name = "checkedKeys" then p.checkedKeys.isSome
  else if name = "selectedKeys" then p.selectedKeys.isSome
  else if name = "loadedKeys" then p.loadedKeys.isSome
  else if name = "loadData" then p.loadData
  else if name = "onExpand" then p.onExpand
  else if name = "onCheck" then p.onCheck
  else if name = "onSelect" then p.onSelect
  else if name = "onLoad" then p.onLoad
  else if name = "onDragStart" then p.onDragStart
  else if name = "onDragEnter" then p.onDragEnter
  else if name = "onDragOver" then p.onDragOver
  else if name = "onDragLeave" then p.onDragLeave
  else if name = "onDragEnd" then p.onDragEnd
  else if name = "onDrop" then p.onDrop
  else name ∈ ["prefixCls", "showLine", "showIcon", "selectable", "multiple", "checkable",
    "disabled", "checkStrictly", "draggable", "defaultExpandParent", "autoExpandParent",
    "defaultExpandAll", "defaultExpandedKeys", "defaultCheckedKeys", "defaultSelectedKeys",
    "inlineIndent"] || name ∈ objectPrototypeNames

/-- The component state (`this.state`). -/
structure State where
  prevProps : Option Props := none
  posEntities : PosEntities := []
  keyEntities : KeyEntities := []
  selectedKeys : List Key := []
  checkedKeys : List Key := []
  halfCheckedKeys : List Key := []
  loadedKeys : List Key := []
  loadingKeys : List Key := []
  treeNode : List TreeNode := []
  internalVisibleKeyLevels : List KeyLevel := []
  expandedKeys : List Key := []
  dragNodesKeys : Option (List Key) := none
  dragOverNodeKey : Option Key := none
  dropPosition : DropPos := DropPos.undefined

/-- The pair of key lists handled by the check logic. -/
structure CheckState where
  checkedKeys : List Key
  halfCheckedKeys : List Key

/-- The result of `parseCheckedKeys`: either field may be missing. -/
structure CheckedKeyEntity where
  checkedKeys : Option (List Key) := none
  halfCheckedKeys : Option (List Key) := none

/-- The helpers imported by `Tree.jsx` whose code is not in `Tree.jsx` and on
whose result no property below depends; they are parameters of the model.
`conductCheck` takes the previous check state as its optional fourth
argument. -/
structure Util where
  convertDataToTree : Option (List TreeNode) → Option (List TreeNode)
  toArray : Option (List TreeNode) → List TreeNode
  convertTreeToEntities : List TreeNode → PosEntities × KeyEntities
  parseCheckedKeys : Option CheckedKeysProp → Option CheckedKeyEntity
  conductExpandParent : Option (List Key) → KeyEntities → List Key
  calcSelectedKeys : Option (List Key) → Props → List Key
  calcDropPosition : Event → NodeProps → Int
  conductCheck : List Key → Bool → KeyEntities → Option CheckState → CheckState

/-! ## Helpers of `./util` modelled from the specification -/

/-- Modelled from the spec: `arrAdd` of `./util` is not in `Tree.jsx`.  Section
4.4: "the key is appended if absent". -/
def arrAdd (list : List Key) (value : Key) : List Key :=
  if value ∈ list then list else list ++ [value]

/-- Modelled from the spec: `arrDel` of `./util` is not in `Tree.jsx`.  Section
4.4: the key is "removed (all occurrences) if present, preserving the relative
order of remaining keys". -/
def arrDel (list : List Key) (value : Key) : List Key :=
  list.filter (fun k => k ≠ value)

/-- Modelled from the spec: `posToArr` of `./util` is not in `Tree.jsx`.
Section 3: a position path is a "sequence encoding sibling indices from root
to node"; `posToArr` lists these indices. -/
def posToArr (pos : Pos) : List Nat := pos

/-- The expression `Number(posArr[posArr.length - 1])`: the last index, or `NaN`
when the array is empty (`Number(undefined)`). -/
def lastIndex (posArr : List Nat) : JSNum :=
  posArr.getLast?.map Int.ofNat

mutual
/-- The keys of a node and of all its descendants, in pre-order; `pos` is the
position path of the node. -/
def nodeKeys (pos : Pos) : TreeNode → List Key
  | TreeNode.mk key children => key.getD (posKey pos) :: childrenKeys pos 0 children
/-- The keys of the nodes of a child list and of all their descendants. -/
def childrenKeys (parent : Pos) (index : Nat) : List TreeNode → List Key
  | [] => []
  | n :: rest => nodeKeys (parent ++ [index]) n ++ childrenKeys parent (index + 1) rest
end

/-- Modelled from the spec: `getDragNodesKeys` of `./util` is not in `Tree.jsx`.
Section 4.5, `collectDescendantKeys`: "returns the set containing the dragged
node's key and all descendant keys". -/
def getDragNodesKeys (children : List TreeNode) (node : NodeProps) : List Key :=
  node.eventKey :: childrenKeys node.pos 0 children

mutual
/-- The visible rows contributed by one node at the given level. -/
def visibleOfNode (expandedKeys : List Key) (level : Nat) (pos : Pos) : TreeNode → List KeyLevel
  | TreeNode.mk key children =>
    { key := key.getD (posKey pos), level := level } ::
      (if key.getD (posKey pos) ∈ expandedKeys then
        visibleOfList expandedKeys (level + 1) pos 0 children
      else [])
/-- The visible rows contributed by a list of siblings. -/
def visibleOfList (expandedKeys : List Key) (level : Nat) (parent : Pos) (index : Nat) :
    List TreeNode → List KeyLevel
  | [] => []
  | n :: rest =>
    visibleOfNode expandedKeys level (parent ++ [index]) n ++
      visibleOfList expandedKeys level parent (index + 1) rest
end

/-- Modelled from the spec: `getVisibleKeyLevelListByTreeNode` of `./util` is
not in `Tree.jsx`.  Section 4.3, `flattenVisible`: a "pre-order traversal
producing an ordered ... sequence of `{key, level}`; descends into a node's
children only if that node's key is in `expandedKeys`; root-level nodes are
always included".  Root rows have level 0 and the position prefix 0, the
default `level = 0` of `renderTreeNode`. -/
def getVisibleKeyLevelListByTreeNode (treeNode : List TreeNode) (expandedKeys : List Key)
    (_keyEntities : KeyEntities) : List KeyLevel :=
  visibleOfList expandedKeys 0 [0] 0 treeNode

/-! ## Callbacks, timers and the component -/

/-- The argument of `onDrop`.  `dropToGap` is absent (`none`) unless the code
sets it. -/
structure DropResult where
  event : Event
  node : NodeProps
  dragNode : Option NodeProps
  dragNodesKeys : List Key
  dropPosition : JSNum
  dropToGap : Option Bool

/-- The second argument of `onSelect`. -/
structure SelectInfo where
  selected : Bool
  node : NodeProps
  selectedNodes : List TreeNode

/-- The first argument of `onCheck`: the key list, or in strict mode the object
`{checked, halfChecked}`. -/
inductive CheckedObj where
  | keys (checkedKeys : List Key)
  | strict (checked halfChecked : List Key)

/-- The second argument of `onCheck`; the last two fields exist only outside
strict mode.  An element of `checkedNodes` is a node or `undefined` (`none`),
and so are the `node` and `pos` of an element of `checkedNodesPositions`. -/
structure CheckInfo where
  node : NodeProps
  checked : Bool
  checkedNodes : List (Option TreeNode)
  checkedNodesPositions : Option (List (Option TreeNode × Option Pos))
  halfCheckedKeys : Option (List Key)

/-- A call made by a handler to the outside: a callback prop, `loadData`, or
the diagnostic `warning`. -/
inductive Effect where
  | warning (msg : String)
  | onDragStart (event : Event) (node : NodeProps)
  | onDragEnter (event : Event) (node : NodeProps) (expandedKeys : List Key)
  | onDragOver (event : Event) (node : NodeProps)
  | onDragLeave (event : Event) (node : NodeProps)
  | onDragEnd (event : Event) (node : NodeProps)
  | onDrop (result : DropResult)
  | onSelect (selectedKeys : List Key) (info : SelectInfo)
  | onCheck (checkedObj : CheckedObj) (info : CheckInfo)
  | onLoad (loadedKeys : List Key) (node : NodeProps)
  | onExpand (expandedKeys : List Key) (node : NodeProps) (expanded : Bool)
  | loadData (node : NodeProps)

/-- Whether the effect is a call of `onDrop`. -/
def Effect.isOnDrop : Effect → Bool
  | Effect.onDrop _ => true
  | _ => false

/-- Whether the effect is a call of `onDragEnter`. -/
def Effect.isOnDragEnter : Effect → Bool
  | Effect.onDragEnter _ _ _ => true
  | _ => false

/-- Whether the effect is a call of `loadData`. -/
def Effect.isLoadData : Effect → Bool
  | Effect.loadData _ => true
  | _ => false

/-- Whether the effect is a call of `onCheck`. -/
def Effect.isOnCheck : Effect → Bool
  | Effect.onCheck _ _ => true
  | _ => false

/-- The values captured by the closures that `onNodeDragEnter` hands to
`setTimeout`: they are read when the handler runs, not when the timer fires. -/
structure DragEnterClosure where
  event : Event
  node : NodeProps
  expandedKeys : List Key
  onDragEnter : Bool
  dropPosition : Int

/-- The two callbacks that `onNodeDragEnter` schedules. -/
inductive Task where
  | dragEnterDeferred (cl : DragEnterClosure)
  | dragEnterExpand (cl : DragEnterClosure)

/-- Whether the task is the hover-expansion callback. -/
def Task.isExpand : Task → Bool
  | Task.dragEnterExpand _ => true
  | Task.dragEnterDeferred _ => false

/-- A pending timer of the host. -/
structure Timer where
  id : Nat
  delay : Nat
  task : Task

/-- The component instance: props, state, the two instance fields the drag
handlers use, and the pending timers of the host. -/
structure Component where
  props : Props := {}
  state : State := {}
  dragNode : Option NodeProps := none
  delayedDragEnterLogic : Option (List (Pos × Nat)) := none
  timers : List Timer := []
  nextTimerId : Nat := 0

/-- What a handler did: the component afterwards, the calls it made in order,
and whether it was aborted by a `TypeError`. -/
structure Outcome where
  comp : Component
  effects : List Effect := []
  threw : Bool := false

/-- One property of a partial state object passed to `setState`. -/
inductive Field where
  | selectedKeys (v : List Key)
  | checkedKeys (v : List Key)
  | halfCheckedKeys (v : List Key)
  | loadedKeys (v : List Key)
  | loadingKeys (v : List Key)
  | expandedKeys (v : List Key)
  | internalVisibleKeyLevels (v : List KeyLevel)
  | dragNodesKeys (v : List Key)
  | dragOverNodeKey (v : Key)
  | dropPosition (v : DropPos)

/-- The property name of a field. -/
def Field.name : Field → String
  | Field.selectedKeys _ => "selectedKeys"
  | Field.checkedKeys _ => "checkedKeys"
  | Field.halfCheckedKeys _ => "halfCheckedKeys"
  | Field.loadedKeys _ => "loadedKeys"
  | Field.loadingKeys _ => "loadingKeys"
  | Field.expandedKeys _ => "expandedKeys"
  | Field.internalVisibleKeyLevels _ => "internalVisibleKeyLevels"
  | Field.dragNodesKeys _ => "dragNodesKeys"
  | Field.dragOverNodeKey _ => "dragOverNodeKey"
  | Field.dropPosition _ => "dropPosition"

/-- Writing one property into the state. -/
def State.assign (s : State) : Field → State
  | Field.selectedKeys v => { s with selectedKeys := v }
  | Field.checkedKeys v => { s with checkedKeys := v }
  | Field.halfCheckedKeys v => { s with halfCheckedKeys := v }
  | Field.loadedKeys v => { s with loadedKeys := v }
  | Field.loadingKeys v => { s with loadingKeys := v }
  | Field.expandedKeys v => { s with expandedKeys := v }
  | Field.internalVisibleKeyLevels v => { s with internalVisibleKeyLevels := v }
  | Field.dragNodesKeys v => { s with dragNodesKeys := some v }
  | Field.dragOverNodeKey v => { s with dragOverNodeKey := some v }
  | Field.dropPosition v => { s with dropPosition := v }

/-- The call `this.setState(partial)`: the properties of the partial state
object are merged into the state. -/
def Component.setState (c : Component) (patch : List Field) : Component :=
  { c with state := patch.foldl State.assign c.state }

/-- The call `setTimeout(task, delay)`: the timer is queued under a fresh id,
which is returned. -/
def Component.setTimeout (c : Component) (task : Task) (delay : Nat) : Component × Nat :=
  ({ c with timers := c.timers ++ [{ id := c.nextTimerId, delay := delay, task := task }],
            nextTimerId := c.nextTimerId + 1 }, c.nextTimerId)

/-- The call `clearTimeout(id)`. -/
def Component.clearTimeout (c : Component) (id : Nat) : Component :=
  { c with timers := c.timers.filter (fun t => t.id ≠ id) }

/-- The assignment `object[pos] = id`. -/
def setEntry (object : List (Pos × Nat)) (pos : Pos) (id : Nat) : List (Pos × Nat) :=
  if object.any (fun e => e.1 == pos) then
    object.map (fun e => if e.1 == pos then (pos, id) else e)
  else object ++ [(pos, id)]

/-! ## Deriving state from props -/

/-- The local function `needSync(name)` of `getDerivedStateFromProps`:
`(!prevProps && name in props) || (prevProps && prevProps[name] !== props[name])`.
`read` gives the identity of the prop value, `none` when the prop is absent. -/
def needSync {ν : Type} [DecidableEq ν] (prevProps : Option Props) (props : Props)
    (read : Props → Option ν) : Bool :=
  match prevProps with
  | none => (read props).isSome
  | some pp => decide (read pp ≠ read props)

/-- The section "Tree Node" of `getDerivedStateFromProps`: the local `treeNode`,
`none` for `null`. -/
def deriveTreeNode (u : Util) (props : Props) (prevProps : Option Props) :
    Option (List TreeNode) :=
  if needSync prevProps props (fun p => p.treeData.map Ref.addr) then
    u.convertDataToTree (props.treeData.map Ref.val)
  else if needSync prevProps props (fun p => p.children.map Ref.addr) then
    some (u.toArray (props.children.map Ref.val))
  else none

/-- The block `if (treeNode) { ... }`: the forest and the entity maps are
stored. -/
def storeTreeNode (u : Util) (treeNode : Option (List TreeNode)) (s : State) : State :=
  match treeNode with
  | some t =>
    { s with treeNode := t, posEntities := (u.convertTreeToEntities t).1,
             keyEntities := (u.convertTreeToEntities t).2 }
  | none => s

/-- The section "expandedKeys": `none` when `newState.expandedKeys` is not
assigned, `some none` when `undefined` is assigned to it. -/
def deriveExpandedKeys (u : Util) (props : Props) (prevProps : Option Props)
    (keyEntities : KeyEntities) : Option (Option (List Key)) :=
  if needSync prevProps props (fun p => p.expandedKeys.map Ref.addr) ||
      (prevProps.isSome && needSync prevProps props (fun p => some p.autoExpandParent)) then
    if props.autoExpandParent || (prevProps.isNone && props.defaultExpandParent) then
      some (some (u.conductExpandParent (props.expandedKeys.map Ref.val) keyEntities))
    else some (props.expandedKeys.map Ref.val)
  else if prevProps.isNone && props.defaultExpandAll then
    some (some (keyEntities.map Prod.fst))
  else if prevProps.isNone then
    if props.autoExpandParent || props.defaultExpandParent then
      some (some (u.conductExpandParent (some props.defaultExpandedKeys) keyEntities))
    else some (some props.defaultExpandedKeys)
  else none

/-- The assignment of `newState.expandedKeys`, when there is one. -/
def storeExpandedKeys (newExpandedKeys : Option (List Key)) (s : State) : State :=
  match newExpandedKeys with
  | some ks => { s with expandedKeys := ks }
  | none => s

/-- The block "Generate visible treeNode list", guarded by
`newState.treeNode || newState.expandedKeys || !prevState.expandedKeys`.  The
last test is true only before the first call, when `prevProps` is absent. -/
def storeVisible (recompute : Bool) (s : State) : State :=
  if recompute then
    { s with internalVisibleKeyLevels :=
        getVisibleKeyLevelListByTreeNode s.treeNode s.expandedKeys s.keyEntities }
  else s

/-- The section "selectedKeys". -/
def storeSelectedKeys (u : Util) (props : Props) (prevProps : Option Props) (s : State) :
    State :=
  if props.selectable then
    if needSync prevProps props (fun p => p.selectedKeys.map Ref.addr) then
      { s with selectedKeys := u.calcSelectedKeys (props.selectedKeys.map Ref.val) props }
    else if prevProps.isNone then
      { s with selectedKeys := u.calcSelectedKeys (some props.defaultSelectedKeys) props }
    else s
  else s

/-- The local `checkedKeyEntity` of the section "checkedKeys". -/
def deriveCheckedKeyEntity (u : Util) (props : Props) (prevState : State)
    (treeNode : Option (List TreeNode)) : Option CheckedKeyEntity :=
  if props.checkable then
    if needSync prevState.prevProps props (fun p => p.checkedKeys.map Ref.addr) then
      some ((u.parseCheckedKeys (props.checkedKeys.map Ref.val)).getD {})
    else if prevState.prevProps.isNone then
      some ((u.parseCheckedKeys (some (CheckedKeysProp.keys props.defaultCheckedKeys))).getD {})
    else if treeNode.isSome then
      some { checkedKeys := some prevState.checkedKeys,
             halfCheckedKeys := some prevState.halfCheckedKeys }
    else none
  else none

/-- The block `if (checkedKeyEntity) { ... }`. -/
def storeCheckedKeys (u : Util) (props : Props) (entity : Option CheckedKeyEntity)
    (s : State) : State :=
  match entity with
  | some e =>
    if !props.checkStrictly then
      { s with
        checkedKeys := (u.conductCheck (e.checkedKeys.getD []) true s.keyEntities none).checkedKeys,
        halfCheckedKeys :=
          (u.conductCheck (e.checkedKeys.getD []) true s.keyEntities none).halfCheckedKeys }
    else
      { s with checkedKeys := e.checkedKeys.getD [],
               halfCheckedKeys := e.halfCheckedKeys.getD [] }
  | none => s

/-- The section "loadedKeys"; `none` where `undefined` would be stored. -/
def storeLoadedKeys (props : Props) (prevProps : Option Props) (s : State) : Option State :=
  if needSync prevProps props (fun p => p.loadedKeys.map Ref.addr) then
    match props.loadedKeys with
    | some r => some { s with loadedKeys := r.val }
    | none => none
  else some s

/-- The static method `getDerivedStateFromProps(props, prevState)`, returning
the state after the derived object has been merged into `prevState`; its
sections are the definitions above, in the order of the code.  The result is
`none` where the code would store `undefined` in `expandedKeys` or
`loadedKeys`. -/
def getDerivedStateFromProps (u : Util) (props : Props) (prevState : State) : Option State :=
  let prevProps := prevState.prevProps
  let treeNode := deriveTreeNode u props prevProps
  let s1 := storeTreeNode u treeNode { prevState with prevProps := some props }
  match deriveExpandedKeys u props prevProps s1.keyEntities with
  | some none => none
  | newExpandedKeys =>
    let s2 := storeExpandedKeys newExpandedKeys.join s1
    let s3 := storeVisible (treeNode.isSome || newExpandedKeys.join.isSome || prevProps.isNone) s2
    let s4 := storeSelectedKeys u props prevProps s3
    let s5 := storeCheckedKeys u props (deriveCheckedKeyEntity u props prevState treeNode) s4
    storeLoadedKeys props prevProps s5

/-- The component receives new props from its parent: React stores them and
derives the state from them. -/
def Component.receiveProps (u : Util) (c : Component) (props : Props) : Option Component :=
  (getDerivedStateFromProps u props c.state).map
    (fun s => { c with props := props, state := s })

/-- The update that follows a `setState`: React derives the state again from
the unchanged props before it renders. -/
def Component.rerender (u : Util) (c : Component) : Option Component :=
  c.receiveProps u c.props

/-! ## Writing state that may be controlled from outside -/

/-- The method `setUncontrolledState(state)`: "Only update the value which is
not in props". -/
def Component.setUncontrolledState (c : Component) (state : List Field) : Component :=
  c.setState (state.filter (fun f => !c.props.has f.name))

/-- The method `setUncontrolledExpandedKeys(expandedKeys)`. -/
def Component.setUncontrolledExpandedKeys (c : Component) (expandedKeys : List Key) :
    Component :=
  if !c.props.has "expandedKeys" then
    c.setUncontrolledState
      [Field.expandedKeys expandedKeys,
       Field.internalVisibleKeyLevels
         (getVisibleKeyLevelListByTreeNode c.state.treeNode expandedKeys c.state.keyEntities)]
  else c

/-! ## Drag and drop handlers -/

/-- The handler `onNodeDragStart(event, node)`. -/
def onNodeDragStart (c : Component) (event : Event) (node : NodeProps) : Outcome :=
  let expandedKeys := c.state.expandedKeys
  let c1 : Component := { c with dragNode := some node }
  let c2 := c1.setState
    [Field.dragNodesKeys (getDragNodesKeys node.children node),
     Field.expandedKeys (arrDel expandedKeys node.eventKey)]
  { comp := c2, effects := if c.props.onDragStart then [Effect.onDragStart event node] else [] }

/-- The handler `onNodeDragEnter(event, node)`.  Unless it returns early it
schedules its deferred step with `setTimeout(..., 0)`. -/
def onNodeDragEnter (u : Util) (c : Component) (event : Event) (node : NodeProps) : Outcome :=
  match c.dragNode with
  | none => { comp := c }
  | some dragNode =>
    let dropPosition := u.calcDropPosition event node
    if dragNode.eventKey = node.eventKey ∧ dropPosition = 0 then
      { comp := c.setState [Field.dragOverNodeKey "", Field.dropPosition DropPos.null] }
    else
      { comp := (c.setTimeout
          (Task.dragEnterDeferred
            { event := event, node := node, expandedKeys := c.state.expandedKeys,
              onDragEnter := c.props.onDragEnter, dropPosition := dropPosition }) 0).1 }

/-- The body of a timer callback scheduled by `onNodeDragEnter`. -/
def runTask (c : Component) : Task → Outcome
  | Task.dragEnterDeferred cl =>
    -- Update drag over node
    let c1 := c.setState
      [Field.dragOverNodeKey cl.node.eventKey, Field.dropPosition (DropPos.num cl.dropPosition)]
    -- Side effect for delay drag
    let logic := c1.delayedDragEnterLogic.getD []
    let c2 := logic.foldl (fun acc e => acc.clearTimeout e.2) c1
    let r := c2.setTimeout (Task.dragEnterExpand cl) 400
    { comp := { r.1 with delayedDragEnterLogic := some (setEntry logic cl.node.pos r.2) } }
  | Task.dragEnterExpand cl =>
    let newExpandedKeys := arrAdd cl.expandedKeys cl.node.eventKey
    { comp := c.setState [Field.expandedKeys newExpandedKeys],
      effects :=
        if cl.onDragEnter then [Effect.onDragEnter cl.event cl.node newExpandedKeys] else [] }

/-- The host fires the pending timer `id`: the timer leaves the queue and its
callback runs.  Nothing happens when no such timer is pending. -/
def fireTimer (c : Component) (id : Nat) : Outcome :=
  match c.timers.find? (fun t => t.id == id) with
  | none => { comp := c }
  | some t => runTask (c.clearTimeout id) t.task

/-- The handler `onNodeDragOver(event, node)`. -/
def onNodeDragOver (u : Util) (c : Component) (event : Event) (node : NodeProps) : Outcome :=
  let notify : List Effect := if c.props.onDragOver then [Effect.onDragOver event node] else []
  if c.dragNode.isSome ∧ some node.eventKey = c.state.dragOverNodeKey then
    let dropPosition := u.calcDropPosition event node
    if DropPos.num dropPosition = c.state.dropPosition then { comp := c }
    else { comp := c.setState [Field.dropPosition (DropPos.num dropPosition)], effects := notify }
  else { comp := c, effects := notify }

/-- The handler `onNodeDragLeave(event, node)`. -/
def onNodeDragLeave (c : Component) (event : Event) (node : NodeProps) : Outcome :=
  { comp := c.setState [Field.dragOverNodeKey ""],
    effects := if c.props.onDragLeave then [Effect.onDragLeave event node] else [] }

/-- The handler `onNodeDragEnd(event, node)`. -/
def onNodeDragEnd (c : Component) (event : Event) (node : NodeProps) : Outcome :=
  { comp := c.setState [Field.dragOverNodeKey ""],
    effects := if c.props.onDragEnd then [Effect.onDragEnd event node] else [] }

/-- The sum `dropPosition + Number(posArr[posArr.length - 1])` of `onNodeDrop`:
`null` counts as 0, and `undefined` or `NaN` give `NaN`. -/
def addDropPosition (dropPosition : DropPos) (n : JSNum) : JSNum :=
  match dropPosition with
  | DropPos.undefined => none
  | DropPos.null => n
  | DropPos.num d => n.map (fun i => d + i)

/-- The handler `onNodeDrop(event, node)`. -/
def onNodeDrop (c : Component) (event : Event) (node : NodeProps) : Outcome :=
  let dragNodesKeys := c.state.dragNodesKeys.getD []
  let dropPosition := c.state.dropPosition
  let c1 := c.setState [Field.dragOverNodeKey ""]
  if node.eventKey ∈ dragNodesKeys then
    { comp := c1,
      effects := [Effect.warning "Can not drop to dragNode(include it\x27s children node)"] }
  else
    let posArr := posToArr node.pos
    let dropResult : DropResult :=
      { event := event, node := node, dragNode := c.dragNode,
        dragNodesKeys := dragNodesKeys,
        dropPosition := addDropPosition dropPosition (lastIndex posArr),
        dropToGap := if dropPosition ≠ DropPos.num 0 then some true else none }
    { comp := c1, effects := if c.props.onDrop then [Effect.onDrop dropResult] else [] }

/-! ## Select, check, load and expand handlers -/

/-- The entity stored under a key as an own property of `keyEntities`. -/
def entityOf (keyEntities : KeyEntities) (key : Key) : Option Entity :=
  keyEntities.lookup key

/-- The value of a lookup in the plain object `keyEntities`. -/
inductive Lookup where
  | entity (e : Entity)
  | inherited
  | undefined

/-- The expression `keyEntities[key]`: the entity stored under the key; failing
that, the member of `Object.prototype` of that name, when the key is one of
`objectPrototypeNames`; failing that, `undefined`. -/
def keyEntitiesGet (keyEntities : KeyEntities) (key : Key) : Lookup :=
  match entityOf keyEntities key with
  | some e => Lookup.entity e
  | none => if key ∈ objectPrototypeNames then Lookup.inherited else Lookup.undefined

/-- Whether the value is truthy: an entity and an inherited member are, and
`undefined` is not. -/
def Lookup.truthy : Lookup → Bool
  | Lookup.undefined => false
  | _ => true

/-- The property `node` of a truthy value: the node of an entity, and
`undefined` (`none`) for an inherited member, which has no such property. -/
def Lookup.node : Lookup → Option TreeNode
  | Lookup.entity e => some e.node
  | _ => none

/-- The property `pos` of a truthy value, as for `node`. -/
def Lookup.pos : Lookup → Option Pos
  | Lookup.entity e => some e.pos
  | _ => none

/-- The handler `onNodeSelect(e, treeNode)`.  The keys are mapped to `null` or to
`entity.node`, and `filter(node => node)` keeps the nodes. -/
def onNodeSelect (c : Component) (treeNode : NodeProps) : Outcome :=
  let keyEntities := c.state.keyEntities
  let targetSelected := !treeNode.selected
  -- Update selected keys
  let selectedKeys :=
    if !targetSelected then arrDel c.state.selectedKeys treeNode.eventKey
    else if !c.props.multiple then [treeNode.eventKey]
    else arrAdd c.state.selectedKeys treeNode.eventKey
  let selectedNodes :=
    selectedKeys.filterMap (fun key => (keyEntitiesGet keyEntities key).node)
  let c1 := c.setUncontrolledState [Field.selectedKeys selectedKeys]
  { comp := c1,
    effects :=
      if c.props.onSelect then
        [Effect.onSelect selectedKeys
          { selected := targetSelected, node := treeNode, selectedNodes := selectedNodes }]
      else [] }

/-- The expression `checkedKeys.map(key => keyEntities[key].node)` of strict
mode: `none` when `keyEntities[key]` is `undefined` for some key, where the code
raises a `TypeError`. -/
def strictCheckedNodes (keyEntities : KeyEntities) :
    List Key → Option (List (Option TreeNode))
  | [] => some []
  | key :: rest =>
    match keyEntitiesGet keyEntities key with
    | Lookup.undefined => none
    | found => (strictCheckedNodes keyEntities rest).map (fun nodes => found.node :: nodes)

/-- The handler `onNodeCheck(e, treeNode, checked)`.  In strict mode
`keyEntities[key].node` raises a `TypeError` for a key whose lookup is
`undefined`; this happens before any state is written and before `onCheck`.
Outside strict mode the `forEach` returns early for a key whose lookup is falsy
and pushes `node` and `{node, pos}` of the value found for the others. -/
def onNodeCheck (u : Util) (c : Component) (treeNode : NodeProps) (checked : Bool) : Outcome :=
  let keyEntities := c.state.keyEntities
  let oriCheckedKeys := c.state.checkedKeys
  let oriHalfCheckedKeys := c.state.halfCheckedKeys
  let eventKey := treeNode.eventKey
  if c.props.checkStrictly then
    let checkedKeys :=
      if checked then arrAdd oriCheckedKeys eventKey else arrDel oriCheckedKeys eventKey
    let halfCheckedKeys := arrDel oriHalfCheckedKeys eventKey
    let checkedObj := CheckedObj.strict checkedKeys halfCheckedKeys
    match strictCheckedNodes keyEntities checkedKeys with
    | some checkedNodes =>
      let eventObj : CheckInfo :=
        { node := treeNode, checked := checked, checkedNodes := checkedNodes,
          checkedNodesPositions := none, halfCheckedKeys := none }
      { comp := c.setUncontrolledState [Field.checkedKeys checkedKeys],
        effects := if c.props.onCheck then [Effect.onCheck checkedObj eventObj] else [] }
    | none => { comp := c, threw := true }
  else
    let conducted := u.conductCheck [eventKey] checked keyEntities
      (some { checkedKeys := oriCheckedKeys, halfCheckedKeys := oriHalfCheckedKeys })
    let checkedKeys := conducted.checkedKeys
    let halfCheckedKeys := conducted.halfCheckedKeys
    let checkedObj := CheckedObj.keys checkedKeys
    let found := (checkedKeys.map (keyEntitiesGet keyEntities)).filter Lookup.truthy
    let eventObj : CheckInfo :=
      { node := treeNode, checked := checked,
        checkedNodes := found.map Lookup.node,
        checkedNodesPositions := some (found.map (fun e => (e.node, e.pos))),
        halfCheckedKeys := some halfCheckedKeys }
    { comp := c.setUncontrolledState
        [Field.checkedKeys checkedKeys, Field.halfCheckedKeys halfCheckedKeys],
      effects := if c.props.onCheck then [Effect.onCheck checkedObj eventObj] else [] }

/-- A load in flight: the promise returned by `loadData`, with what the `then`
callback of `onNodeLoad` captured. -/
structure LoadPromise where
  treeNode : NodeProps
  onLoad : Bool

/-- The synchronous part of `onNodeLoad(treeNode)`; the second component is the
returned promise, `none` for `null`. -/
def onNodeLoad (c : Component) (treeNode : NodeProps) : Outcome × Option LoadPromise :=
  let loadedKeys := c.state.loadedKeys
  let loadingKeys := c.state.loadingKeys
  let eventKey := treeNode.eventKey
  if !c.props.loadData ∨ eventKey ∈ loadedKeys ∨ eventKey ∈ loadingKeys then
    ({ comp := c }, none)
  else
    ({ comp := c.setState [Field.loadingKeys (arrAdd loadingKeys eventKey)],
       effects := [Effect.loadData treeNode] },
     some { treeNode := treeNode, onLoad := c.props.onLoad })

/-- The callback that `onNodeLoad` attaches with `promise.then`; it runs when
the promise is fulfilled. -/
def onNodeLoadFulfilled (c : Component) (p : LoadPromise) : Outcome :=
  let eventKey := p.treeNode.eventKey
  let newLoadedKeys := arrAdd c.state.loadedKeys eventKey
  let c1 := c.setUncontrolledState [Field.loadedKeys newLoadedKeys]
  let c2 := c1.setState [Field.loadingKeys (arrDel c1.state.loadingKeys eventKey)]
  { comp := c2, effects := if p.onLoad then [Effect.onLoad newLoadedKeys p.treeNode] else [] }

/-- The promise of a load settles.  `onNodeLoad` attaches a fulfilment callback
only, so a rejection runs no code of the component. -/
def settleLoad (c : Component) (p : LoadPromise) (fulfilled : Bool) : Outcome :=
  if fulfilled then onNodeLoadFulfilled c p else { comp := c }

/-- The synchronous part of `onNodeExpand(e, treeNode)`.  The second component
is the load whose fulfilment the handler waits for, with the expanded keys its
refresh callback captured. -/
def onNodeExpand (c : Component) (treeNode : NodeProps) :
    Outcome × Option (LoadPromise × List Key) :=
  let eventKey := treeNode.eventKey
  let expanded := treeNode.expanded
  let inList : Bool := decide (eventKey ∈ c.state.expandedKeys)
  let targetExpanded := !expanded
  let warn : List Effect :=
    if (expanded && inList) || (!expanded && !inList) then []
    else [Effect.warning "Expand state not sync with index check"]
  let expandedKeys :=
    if targetExpanded then arrAdd c.state.expandedKeys eventKey
    else arrDel c.state.expandedKeys eventKey
  let c1 := c.setUncontrolledExpandedKeys expandedKeys
  let notify : List Effect :=
    if c.props.onExpand then [Effect.onExpand expandedKeys treeNode targetExpanded] else []
  -- Async Load data
  if targetExpanded ∧ c.props.loadData then
    let r := onNodeLoad c1 treeNode
    ({ comp := r.1.comp, effects := warn ++ notify ++ r.1.effects },
     r.2.map (fun p => (p, expandedKeys)))
  else ({ comp := c1, effects := warn ++ notify }, none)

/-- The refresh callback of `onNodeExpand`, run after the load is fulfilled. -/
def onNodeExpandRefresh (c : Component) (expandedKeys : List Key) : Outcome :=
  { comp := c.setUncontrolledExpandedKeys expandedKeys }

/-! ## Events of the component -/

/-- The events the component reacts to. -/
inductive Input where
  | props (p : Props)
  | dragStart (event : Event) (node : NodeProps)
  | dragEnter (event : Event) (node : NodeProps)
  | dragOver (event : Event) (node : NodeProps)
  | dragLeave (event : Event) (node : NodeProps)
  | dragEnd (event : Event) (node : NodeProps)
  | drop (event : Event) (node : NodeProps)
  | timer (id : Nat)
  | select (node : NodeProps)
  | check (node : NodeProps) (checked : Bool)
  | expand (node : NodeProps)
  | load (node : NodeProps)
  | loadSettled (p : LoadPromise) (fulfilled : Bool)
  | expandRefresh (expandedKeys : List Key)

/-- The component after one event, and the calls made while handling it.  New
props that would leave the typed model leave the component as it is. -/
def step (u : Util) (c : Component) : Input → Outcome
  | Input.props p => { comp := (c.receiveProps u p).getD c }
  | Input.dragStart e n => onNodeDragStart c e n
  | Input.dragEnter e n => onNodeDragEnter u c e n
  | Input.dragOver e n => onNodeDragOver u c e n
  | Input.dragLeave e n => onNodeDragLeave c e n
  | Input.dragEnd e n => onNodeDragEnd c e n
  | Input.drop e n => onNodeDrop c e n
  | Input.timer id => fireTimer c id
  | Input.select n => onNodeSelect c n
  | Input.check n checked => onNodeCheck u c n checked
  | Input.expand n => (onNodeExpand c n).1
  | Input.load n => (onNodeLoad c n).1
  | Input.loadSettled p fulfilled => settleLoad c p fulfilled
  | Input.expandRefresh ks => onNodeExpandRefresh c ks

/-- Whether the event is a drag start. -/
def Input.isDragStart : Input → Bool
  | Input.dragStart _ _ => true
  | _ => false

/-- Whether the event is the fulfilment of a load of the key `k`. -/
def Input.fulfils (k : Key) : Input → Bool
  | Input.loadSettled p true => p.treeNode.eventKey == k
  | _ => false

/-- The component after a sequence of events. -/
def run (u : Util) (c : Component) (inputs : List Input) : Component :=
  inputs.foldl (fun acc i => (step u acc i).comp) c

/-! ## A concrete instance of the helpers

The handlers above take the remaining helpers of `./util` as the parameter
`u : Util`.  The instance below is used to evaluate them on concrete inputs. -/

/-- The ancestors of a key, nearest first, following the parent links. -/
def ancestorsOf (keyEntities : KeyEntities) : Nat → Key → List Key
  | 0, _ => []
  | fuel + 1, key =>
    match (entityOf keyEntities key).bind Entity.parent with
    | none => []
    | some parent => parent :: ancestorsOf keyEntities fuel parent

/-- The descendants of a key, in pre-order, following the child links. -/
def descendantsOf (keyEntities : KeyEntities) : Nat → Key → List Key
  | 0, _ => []
  | fuel + 1, key =>
    match entityOf keyEntities key with
    | none => []
    | some entity =>
      (entity.children.map (fun child => child :: descendantsOf keyEntities fuel child)).flatten

/-- Modelled from the spec: `conductExpandParent` of `./util` is not in
`Tree.jsx`.  Section 4.3, `closeOverAncestors`: "returns `keys` plus every
ancestor of every key in `keys`". -/
def conductExpandParent (keys : Option (List Key)) (keyEntities : KeyEntities) : List Key :=
  (keys.getD []).foldl
    (fun acc key => (key :: ancestorsOf keyEntities keyEntities.length key).foldl arrAdd acc) []

/-- The upward step of check conduction for the parent of `key`, repeated up
the ancestor chain: a node is checked iff all its direct children are checked,
half-checked iff some but not all of them are checked or half-checked, and
unchecked otherwise. -/
def conductUp (keyEntities : KeyEntities) : Nat → Key → CheckState → CheckState
  | 0, _, s => s
  | fuel + 1, key, s =>
    match (entityOf keyEntities key).bind Entity.parent with
    | none => s
    | some parent =>
      match entityOf keyEntities parent with
      | none => s
      | some entity =>
        let marked := entity.children.filter
          (fun child => child ∈ s.checkedKeys ∨ child ∈ s.halfCheckedKeys)
        let s1 : CheckState :=
          if entity.children.all (fun child => child ∈ s.checkedKeys) then
            { checkedKeys := arrAdd s.checkedKeys parent,
              halfCheckedKeys := arrDel s.halfCheckedKeys parent }
          else if marked ≠ [] ∧ marked.length < entity.children.length then
            { checkedKeys := arrDel s.checkedKeys parent,
              halfCheckedKeys := arrAdd s.halfCheckedKeys parent }
          else
            { checkedKeys := arrDel s.checkedKeys parent,
              halfCheckedKeys := arrDel s.halfCheckedKeys parent }
        conductUp keyEntities fuel parent s1

/-- Modelled from the spec: `conductCheck` of `./util` is not in `Tree.jsx`.
Section 4.2, rules 1 and 2: a toggled key and all its descendants take the
target value, then the ancestors of the key are recomputed bottom-up. -/
def conductCheck (keys : List Key) (checked : Bool) (keyEntities : KeyEntities)
    (previous : Option CheckState) : CheckState :=
  keys.foldl
    (fun s key =>
      let subtree := key :: descendantsOf keyEntities keyEntities.length key
      let down : CheckState :=
        { checkedKeys := subtree.foldl (if checked then arrAdd else arrDel) s.checkedKeys,
          halfCheckedKeys := subtree.foldl arrDel s.halfCheckedKeys }
      conductUp keyEntities keyEntities.length key down)
    (previous.getD { checkedKeys := [], halfCheckedKeys := [] })

/-- Modelled from the spec: `calcDropPosition` of `./util` is not in
`Tree.jsx`.  Section 4.5, `resolveDropPosition`: above (-1) in the first quarter
of the row, below (1) in the last quarter, inside (0) in between. -/
def calcDropPosition (event : Event) (_node : NodeProps) : Int :=
  if 4 * event.pointerOffset < event.targetHeight then -1
  else if 4 * event.pointerOffset > 3 * event.targetHeight then 1
  else 0

mutual
/-- The entities of a node and of its descendants, in pre-order. -/
def entitiesOfNode (level : Nat) (parent : Option Key) (pos : Pos) : TreeNode → List Entity
  | TreeNode.mk key children =>
    { key := key.getD (posKey pos), pos := pos, level := level, parent := parent,
      children := (entitiesOfList (level + 1) (some (key.getD (posKey pos))) pos 0
        children).filterMap
          (fun e => if e.level = level + 1 then some e.key else none),
      node := TreeNode.mk key children } ::
      entitiesOfList (level + 1) (some (key.getD (posKey pos))) pos 0 children
/-- The entities of a list of siblings and of their descendants. -/
def entitiesOfList (level : Nat) (parent : Option Key) (parentPos : Pos) (index : Nat) :
    List TreeNode → List Entity
  | [] => []
  | n :: rest =>
    entitiesOfNode level parent (parentPos ++ [index]) n ++
      entitiesOfList level parent parentPos (index + 1) rest
end

/-- Modelled from the spec: `convertTreeToEntities` of `./util` is not in
`Tree.jsx`.  Section 4.1: a pre-order walk in which each node gets the
position path of its parent plus its sibling index, and its explicit key or
else its position path as key. -/
def convertTreeToEntities (treeNode : List TreeNode) : PosEntities × KeyEntities :=
  ((entitiesOfList 0 none [0] 0 treeNode).map (fun e => (e.pos, e)),
   (entitiesOfList 0 none [0] 0 treeNode).map (fun e => (e.key, e)))

/-- The helpers used for concrete evaluation.  Data and children are taken as
forests already; `calcSelectedKeys` keeps one key unless `multiple` is set. -/
def sampleUtil : Util where
  convertDataToTree := fun data => data
  toArray := fun children => children.getD []
  convertTreeToEntities := convertTreeToEntities
  parseCheckedKeys := fun keys =>
    keys.map (fun k =>
      match k with
      | CheckedKeysProp.keys l => { checkedKeys := some l }
      | CheckedKeysProp.obj checked halfChecked =>
        { checkedKeys := some checked, halfCheckedKeys := some halfChecked })
  conductExpandParent := conductExpandParent
  calcSelectedKeys := fun keys props =>
    if props.multiple then keys.getD [] else (keys.getD []).take 1
  calcDropPosition := calcDropPosition
  conductCheck := conductCheck

/-! ## Concrete inputs -/

/-- The first render of the component: React derives the initial state from the
props. -/
def mount (u : Util) (props : Props) : Component :=
  (({} : Component).receiveProps u props).getD {}

/-- A forest with two roots: `A` with children `B` and `C`, and `D` with child
`E`. -/
def sampleForest : List TreeNode :=
  [TreeNode.mk (some "A") [TreeNode.mk (some "B") [], TreeNode.mk (some "C") []],
   TreeNode.mk (some "D") [TreeNode.mk (some "E") []]]

/-- The row of `A`, rendered expanded. -/
def rowA : NodeProps :=
  { eventKey := "A", pos := [0, 0], expanded := true,
    children := [TreeNode.mk (some "B") [], TreeNode.mk (some "C") []] }

/-- The row of `B`. -/
def rowB : NodeProps := { eventKey := "B", pos := [0, 0, 0] }

/-- The row of `D`, rendered collapsed. -/
def rowD : NodeProps :=
  { eventKey := "D", pos := [0, 1], children := [TreeNode.mk (some "E") []] }

/-- A pointer in the middle of a row of height 20. -/
def midRow : Event := { pointerOffset := 10, targetHeight := 20 }

/-- Props of a draggable tree that owns its expanded keys; `A` starts
expanded. -/
def ownedProps : Props :=
  { treeData := some { addr := 1, val := sampleForest }, defaultExpandedKeys := ["A"],
    onDrop := true, onDragEnter := true, onDragLeave := true }

/-- Props of a draggable tree whose expanded keys are supplied from outside. -/
def mirroredExpandProps : Props :=
  { treeData := some { addr := 1, val := sampleForest },
    expandedKeys := some { addr := 2, val := ["A"] },
    onDrop := true, onDragEnter := true, onDragLeave := true }

/-- Props of a checkable tree whose checked keys are supplied from outside and
are empty. -/
def mirroredCheckProps : Props :=
  { treeData := some { addr := 1, val := sampleForest }, checkable := true,
    checkedKeys := some { addr := 3, val := CheckedKeysProp.keys [] }, onCheck := true }

/-- Props of a tree with single selection that owns its selected keys. -/
def selectProps : Props :=
  { treeData := some { addr := 1, val := sampleForest }, onSelect := true }

/-- Props of a checkable tree in strict mode that owns its checked keys; `B`
starts checked. -/
def strictProps : Props :=
  { treeData := some { addr := 1, val := sampleForest }, checkable := true,
    checkStrictly := true, defaultCheckedKeys := ["B"], onCheck := true }

/-- Props of a checkable tree in strict mode whose initial checked keys are the
single key `toString`, which is the key of no node. -/
def strictInheritedProps : Props :=
  { treeData := some { addr := 1, val := sampleForest }, checkable := true,
    checkStrictly := true, defaultCheckedKeys := ["toString"], onCheck := true }

/-- Props of a tree that owns its expanded and loaded keys and loads children
on demand. -/
def loadProps : Props :=
  { treeData := some { addr := 1, val := sampleForest }, loadData := true, onLoad := true }

/-- The hover-expansion timers that are pending. -/
def pendingExpandTimers (c : Component) : List Timer :=
  c.timers.filter (fun t => t.task.isExpand)

/-- The timer ids stored in `delayedDragEnterLogic`, under any position. -/
def storedTimerIds (c : Component) : List Nat :=
  (c.delayedDragEnterLogic.getD []).map Prod.snd

/-- A row whose key has no entity in the sample forest. -/
def rowZ : NodeProps := { eventKey := "Z", pos := [0, 9] }

/-! ## Frame lemmas: the recorded drag keys

No event other than a drag start writes `dragNodesKeys`. -/

theorem foldl_assign_dragNodesKeys (patch : List Field) (s : State)
    (h : ∀ f ∈ patch, f.name ≠ "dragNodesKeys") :
    (patch.foldl State.assign s).dragNodesKeys = s.dragNodesKeys := by
  induction patch generalizing s with
  | nil => rfl
  | cons f rest ih =>
    simp only [List.foldl_cons]
    rw [ih _ (fun g hg => h g (List.mem_cons_of_mem _ hg))]
    have := h f (List.mem_cons_self _ _)
    cases f <;> simp_all [State.assign, Field.name]

theorem setState_dragNodesKeys (c : Component) (patch : List Field)
    (h : ∀ f ∈ patch, f.name ≠ "dragNodesKeys") :
    (c.setState patch).state.dragNodesKeys = c.state.dragNodesKeys :=
  foldl_assign_dragNodesKeys patch c.state h

theorem setUncontrolledState_dragNodesKeys (c : Component) (patch : List Field)
    (h : ∀ f ∈ patch, f.name ≠ "dragNodesKeys") :
    (c.setUncontrolledState patch).state.dragNodesKeys = c.state.dragNodesKeys :=
  setState_dragNodesKeys c _ (fun f hf => h f (List.mem_of_mem_filter hf))

theorem setUncontrolledExpandedKeys_dragNodesKeys (c : Component) (ks : List Key) :
    (c.setUncontrolledExpandedKeys ks).state.dragNodesKeys = c.state.dragNodesKeys := by
  unfold Component.setUncontrolledExpandedKeys
  split
  · exact setUncontrolledState_dragNodesKeys c _ (by simp [Field.name])
  · rfl

theorem foldl_clearTimeout_state (ids : List (Pos × Nat)) (c : Component) :
    (ids.foldl (fun acc e => acc.clearTimeout e.2) c).state = c.state := by
  induction ids generalizing c with
  | nil => rfl
  | cons e rest ih => simp only [List.foldl_cons]; rw [ih]; rfl

theorem storeTreeNode_dragNodesKeys (u : Util) (t : Option (List TreeNode)) (s : State) :
    (storeTreeNode u t s).dragNodesKeys = s.dragNodesKeys := by
  unfold storeTreeNode; split <;> rfl

theorem storeExpandedKeys_dragNodesKeys (ks : Option (List Key)) (s : State) :
    (storeExpandedKeys ks s).dragNodesKeys = s.dragNodesKeys := by
  unfold storeExpandedKeys; split <;> rfl

theorem storeVisible_dragNodesKeys (b : Bool) (s : State) :
    (storeVisible b s).dragNodesKeys = s.dragNodesKeys := by
  unfold storeVisible; split <;> rfl

theorem storeSelectedKeys_dragNodesKeys (u : Util) (props : Props) (pp : Option Props)
    (s : State) : (storeSelectedKeys u props pp s).dragNodesKeys = s.dragNodesKeys := by
  unfold storeSelectedKeys; repeat' split
  all_goals rfl

theorem storeCheckedKeys_dragNodesKeys (u : Util) (props : Props)
    (e : Option CheckedKeyEntity) (s : State) :
    (storeCheckedKeys u props e s).dragNodesKeys = s.dragNodesKeys := by
  unfold storeCheckedKeys; repeat' split
  all_goals rfl

theorem storeLoadedKeys_dragNodesKeys (props : Props) (pp : Option Props) (s s' : State)
    (h : storeLoadedKeys props pp s = some s') : s'.dragNodesKeys = s.dragNodesKeys := by
  unfold storeLoadedKeys at h
  split at h
  · split at h
    · cases h; rfl
    · cases h
  · cases h; rfl

theorem getDerivedStateFromProps_dragNodesKeys (u : Util) (props : Props) (s s' : State)
    (h : getDerivedStateFromProps u props s = some s') :
    s'.dragNodesKeys = s.dragNodesKeys := by
  unfold getDerivedStateFromProps at h
  simp only at h
  split at h
  · cases h
  · rw [storeLoadedKeys_dragNodesKeys _ _ _ _ h, storeCheckedKeys_dragNodesKeys,
      storeSelectedKeys_dragNodesKeys, storeVisible_dragNodesKeys,
      storeExpandedKeys_dragNodesKeys, storeTreeNode_dragNodesKeys]

theorem receiveProps_dragNodesKeys (u : Util) (c : Component) (p : Props) :
    ((c.receiveProps u p).getD c).state.dragNodesKeys = c.state.dragNodesKeys := by
  unfold Component.receiveProps
  cases h : getDerivedStateFromProps u p c.state with
  | none => rfl
  | some s => exact getDerivedStateFromProps_dragNodesKeys u p c.state s h

theorem runTask_dragNodesKeys (c : Component) (t : Task) :
    (runTask c t).comp.state.dragNodesKeys = c.state.dragNodesKeys := by
  cases t with
  | dragEnterDeferred cl =>
    simp only [runTask, Component.setTimeout]
    rw [foldl_clearTimeout_state]
    exact setState_dragNodesKeys c _ (by simp [Field.name])
  | dragEnterExpand cl =>
    exact setState_dragNodesKeys c _ (by simp [Field.name])

theorem onNodeLoad_dragNodesKeys (c : Component) (n : NodeProps) :
    (onNodeLoad c n).1.comp.state.dragNodesKeys = c.state.dragNodesKeys := by
  unfold onNodeLoad
  simp only []
  split
  · rfl
  · exact setState_dragNodesKeys c _ (by simp [Field.name])

theorem step_dragNodesKeys (u : Util) (c : Component) (i : Input)
    (h : i.isDragStart = false) :
    (step u c i).comp.state.dragNodesKeys = c.state.dragNodesKeys := by
  cases i with
  | props p => exact receiveProps_dragNodesKeys u c p
  | dragStart e n => simp [Input.isDragStart] at h
  | dragEnter e n =>
    simp only [step, onNodeDragEnter]
    split
    · rfl
    · split
      · exact setState_dragNodesKeys c _ (by simp [Field.name])
      · rfl
  | dragOver e n =>
    simp only [step, onNodeDragOver]
    split
    · split
      · rfl
      · exact setState_dragNodesKeys c _ (by simp [Field.name])
    · rfl
  | dragLeave e n => exact setState_dragNodesKeys c _ (by simp [Field.name])
  | dragEnd e n => exact setState_dragNodesKeys c _ (by simp [Field.name])
  | drop e n =>
    simp only [step, onNodeDrop]
    split <;> exact setState_dragNodesKeys c _ (by simp [Field.name])
  | timer id =>
    simp only [step, fireTimer]
    split
    · rfl
    · rw [runTask_dragNodesKeys]; rfl
  | select n => exact setUncontrolledState_dragNodesKeys c _ (by simp [Field.name])
  | check n checked =>
    simp only [step, onNodeCheck]
    split
    · split
      · exact setUncontrolledState_dragNodesKeys c _ (by simp [Field.name])
      · rfl
    · exact setUncontrolledState_dragNodesKeys c _ (by simp [Field.name])
  | expand n =>
    simp only [step, onNodeExpand]
    split
    · simp only []
      rw [onNodeLoad_dragNodesKeys]
      exact setUncontrolledExpandedKeys_dragNodesKeys c _
    · exact setUncontrolledExpandedKeys_dragNodesKeys c _
  | load n => exact onNodeLoad_dragNodesKeys c n
  | loadSettled p f =>
    simp only [step, settleLoad]
    split
    · simp only [onNodeLoadFulfilled]
      rw [setState_dragNodesKeys _ _ (by simp [Field.name])]
      exact setUncontrolledState_dragNodesKeys c _ (by simp [Field.name])
    · rfl
  | expandRefresh ks => exact setUncontrolledExpandedKeys_dragNodesKeys c _

theorem run_dragNodesKeys (u : Util) (inputs : List Input) (c : Component)
    (h : ∀ i ∈ inputs, i.isDragStart = false) :
    (run u c inputs).state.dragNodesKeys = c.state.dragNodesKeys := by
  induction inputs generalizing c with
  | nil => rfl
  | cons i rest ih =>
    simp only [run, List.foldl_cons]
    have := ih (step u c i).comp (fun j hj => h j (List.mem_cons_of_mem _ hj))
    simp only [run] at this
    rw [this, step_dragNodesKeys u c i (h i (List.mem_cons_self _ _))]


/-! ## C1: the drop veto -/

/-- C1: `onNodeDrop` calls `onDrop` exactly when a handler is supplied and the
key of the target is not in the recorded `dragNodesKeys`, and then once; when
the key is in `dragNodesKeys` it returns without calling `onDrop`.  The recorded
list is the one written by the last drag start, the key of the dragged node and
the keys of all its descendants, whatever events came in between: a drop on the
dragged node or on one of its descendants never calls `onDrop`. -/
theorem onNodeDrop_calls_onDrop_iff (u : Util) (c : Component) (event : Event)
    (node : NodeProps) :
    (node.eventKey ∈ c.state.dragNodesKeys.getD [] →
      ∀ e ∈ (onNodeDrop c event node).effects, e.isOnDrop = false) ∧
    ((∃ e ∈ (onNodeDrop c event node).effects, e.isOnDrop = true) ↔
      (c.props.onDrop = true ∧ node.eventKey ∉ c.state.dragNodesKeys.getD [])) ∧
    ((onNodeDrop c event node).effects.filter Effect.isOnDrop).length ≤ 1 ∧
    (∀ (c0 : Component) (ev0 : Event) (dragged : NodeProps) (inputs : List Input),
      (∀ i ∈ inputs, i.isDragStart = false) →
      c = run u (onNodeDragStart c0 ev0 dragged).comp inputs →
      (node.eventKey = dragged.eventKey ∨
        node.eventKey ∈ childrenKeys dragged.pos 0 dragged.children) →
      ∀ e ∈ (onNodeDrop c event node).effects, e.isOnDrop = false) := by
  have veto : node.eventKey ∈ c.state.dragNodesKeys.getD [] →
      ∀ e ∈ (onNodeDrop c event node).effects, e.isOnDrop = false := by
    intro h e he
    simp only [onNodeDrop, h, if_true, List.mem_singleton] at he
    subst he
    rfl
  refine ⟨veto, ?_, ?_, ?_⟩
  · by_cases h : node.eventKey ∈ c.state.dragNodesKeys.getD []
    · constructor
      · rintro ⟨e, he, hd⟩
        rw [veto h e he] at hd
        cases hd
      · rintro ⟨_, h2⟩
        exact absurd h h2
    · cases hd : c.props.onDrop <;> simp [onNodeDrop, h, hd, Effect.isOnDrop]
  · by_cases h : node.eventKey ∈ c.state.dragNodesKeys.getD []
    · simp [onNodeDrop, h, Effect.isOnDrop]
    · cases hd : c.props.onDrop <;> simp [onNodeDrop, h, hd, Effect.isOnDrop]
  · intro c0 ev0 dragged inputs hin hc hk
    apply veto
    have hrec : c.state.dragNodesKeys =
        some (getDragNodesKeys dragged.children dragged) := by
      rw [hc, run_dragNodesKeys u inputs _ hin]
      rfl
    rw [hrec]
    simp only [Option.getD_some, getDragNodesKeys, List.mem_cons]
    exact hk

/-- Witness of C1 on the sample tree: after dragging `A`, a drop on its child `B`
calls no `onDrop`, and a drop on the other root `D` calls it. -/
theorem onNodeDrop_calls_onDrop_iff_witness :
    (∀ e ∈ (onNodeDrop
        (run sampleUtil (onNodeDragStart (mount sampleUtil ownedProps) midRow rowA).comp
          [Input.dragEnter midRow rowB, Input.timer 0]) midRow rowB).effects,
        e.isOnDrop = false) ∧
    (∃ e ∈ (onNodeDrop
        (run sampleUtil (onNodeDragStart (mount sampleUtil ownedProps) midRow rowA).comp
          [Input.dragEnter midRow rowD, Input.timer 0]) midRow rowD).effects,
        e.isOnDrop = true) :=
  ⟨(onNodeDrop_calls_onDrop_iff sampleUtil _ midRow rowB).2.2.2
      (mount sampleUtil ownedProps) midRow rowA [Input.dragEnter midRow rowB, Input.timer 0]
      (by decide) rfl (by decide),
   (onNodeDrop_calls_onDrop_iff sampleUtil _ midRow rowD).2.1.mpr ⟨by decide, by decide⟩⟩

/-! ## C2: the visible list after a change of the expanded keys -/

/-- C2, evaluated where the code departs from it.  The tree is mounted with `A`
expanded, so its visible list is the one computed from its expanded keys.
`onNodeDragStart` on `A` writes the expanded keys without `A` but leaves the
visible list as it was, and deriving the state again from the unchanged props
does not repair it; the visible list computed from the stored expanded keys is
shorter.  The hover-expansion timer does the same when it adds `D`.
`onNodeExpand`, which goes through `setUncontrolledExpandedKeys`, stores the
recomputed list. -/
theorem onNodeDragStart_keeps_stale_visible_list :
    (mount sampleUtil ownedProps).state.internalVisibleKeyLevels =
      getVisibleKeyLevelListByTreeNode (mount sampleUtil ownedProps).state.treeNode
        (mount sampleUtil ownedProps).state.expandedKeys
        (mount sampleUtil ownedProps).state.keyEntities ∧
    (onNodeDragStart (mount sampleUtil ownedProps) midRow rowA).comp.state.expandedKeys = [] ∧
    (onNodeDragStart (mount sampleUtil ownedProps) midRow rowA).comp.state.internalVisibleKeyLevels
      = [⟨"A", 0⟩, ⟨"B", 1⟩, ⟨"C", 1⟩, ⟨"D", 0⟩] ∧
    getVisibleKeyLevelListByTreeNode
      (onNodeDragStart (mount sampleUtil ownedProps) midRow rowA).comp.state.treeNode
      (onNodeDragStart (mount sampleUtil ownedProps) midRow rowA).comp.state.expandedKeys
      (onNodeDragStart (mount sampleUtil ownedProps) midRow rowA).comp.state.keyEntities
      = [⟨"A", 0⟩, ⟨"D", 0⟩] ∧
    ((onNodeDragStart (mount sampleUtil ownedProps) midRow rowA).comp.rerender sampleUtil).map
      (fun c => (c.state.expandedKeys, c.state.internalVisibleKeyLevels))
      = some ([], [⟨"A", 0⟩, ⟨"B", 1⟩, ⟨"C", 1⟩, ⟨"D", 0⟩]) ∧
    (run sampleUtil (mount sampleUtil ownedProps)
      [Input.dragStart midRow rowA, Input.dragEnter midRow rowD, Input.timer 0,
       Input.timer 1]).state.expandedKeys = ["D"] ∧
    (run sampleUtil (mount sampleUtil ownedProps)
      [Input.dragStart midRow rowA, Input.dragEnter midRow rowD, Input.timer 0,
       Input.timer 1]).state.internalVisibleKeyLevels
      = [⟨"A", 0⟩, ⟨"B", 1⟩, ⟨"C", 1⟩, ⟨"D", 0⟩] ∧
    (onNodeExpand (mount sampleUtil ownedProps) rowA).1.comp.state.expandedKeys = [] ∧
    (onNodeExpand (mount sampleUtil ownedProps) rowA).1.comp.state.internalVisibleKeyLevels
      = [⟨"A", 0⟩, ⟨"D", 0⟩] := by
  decide

/-! ## C3: the guard of `onNodeLoad` -/

/-- C3: `onNodeLoad` calls `loadData` if and only if `loadData` is supplied and
the key is in neither `loadedKeys` nor `loadingKeys`; it then calls it once,
returns the promise, appends the key to `loadingKeys` and leaves `loadedKeys`
alone.  Otherwise it returns `null`, calls nothing and leaves the whole
component, so `loadingKeys` and `loadedKeys`, unchanged. -/
theorem onNodeLoad_calls_loadData_iff (c : Component) (treeNode : NodeProps) :
    ((∃ e ∈ (onNodeLoad c treeNode).1.effects, e.isLoadData = true) ↔
      (c.props.loadData = true ∧ treeNode.eventKey ∉ c.state.loadedKeys ∧
        treeNode.eventKey ∉ c.state.loadingKeys)) ∧
    ((c.props.loadData = true ∧ treeNode.eventKey ∉ c.state.loadedKeys ∧
        treeNode.eventKey ∉ c.state.loadingKeys) →
      (onNodeLoad c treeNode).1.effects = [Effect.loadData treeNode] ∧
      (onNodeLoad c treeNode).2.isSome = true ∧
      (onNodeLoad c treeNode).1.comp.state.loadingKeys =
        c.state.loadingKeys ++ [treeNode.eventKey] ∧
      treeNode.eventKey ∈ (onNodeLoad c treeNode).1.comp.state.loadingKeys ∧
      (onNodeLoad c treeNode).1.comp.state.loadedKeys = c.state.loadedKeys) ∧
    (¬ (c.props.loadData = true ∧ treeNode.eventKey ∉ c.state.loadedKeys ∧
        treeNode.eventKey ∉ c.state.loadingKeys) →
      (onNodeLoad c treeNode).2 = none ∧
      (onNodeLoad c treeNode).1.effects = [] ∧
      (onNodeLoad c treeNode).1.comp = c) := by
  by_cases hg : c.props.loadData = true ∧ treeNode.eventKey ∉ c.state.loadedKeys ∧
      treeNode.eventKey ∉ c.state.loadingKeys
  · obtain ⟨h1, h2, h3⟩ := hg
    have hcond : ¬ ((!c.props.loadData) = true ∨ treeNode.eventKey ∈ c.state.loadedKeys ∨
        treeNode.eventKey ∈ c.state.loadingKeys) := by
      simp [h1, h2, h3]
    simp only [onNodeLoad, hcond, if_false]
    refine ⟨?_, ?_, ?_⟩
    · simp [h1, h2, h3, Effect.isLoadData]
    · intro _
      simp [Component.setState, State.assign, arrAdd, h3]
    · intro hn
      exact absurd ⟨h1, h2, h3⟩ hn
  · have hcond : (!c.props.loadData) = true ∨ treeNode.eventKey ∈ c.state.loadedKeys ∨
        treeNode.eventKey ∈ c.state.loadingKeys := by
      by_cases h1 : c.props.loadData = true
      · by_cases h2 : treeNode.eventKey ∈ c.state.loadedKeys
        · exact Or.inr (Or.inl h2)
        · by_cases h3 : treeNode.eventKey ∈ c.state.loadingKeys
          · exact Or.inr (Or.inr h3)
          · exact absurd ⟨h1, h2, h3⟩ hg
      · left
        simpa using h1
    simp only [onNodeLoad, hcond, if_true]
    refine ⟨?_, ?_, ?_⟩
    · simp [hg]
    · intro h
      exact absurd h hg
    · intro _
      simp

/-- Witness of C3: on a mounted tree with `loadData`, the first load of `A` calls
`loadData` and marks `A` as loading; a second one does nothing. -/
theorem onNodeLoad_calls_loadData_iff_witness :
    (onNodeLoad (mount sampleUtil loadProps) rowA).1.effects =
        [Effect.loadData rowA] ∧
    (onNodeLoad (onNodeLoad (mount sampleUtil loadProps) rowA).1.comp rowA).2 = none :=
  ⟨((onNodeLoad_calls_loadData_iff (mount sampleUtil loadProps)
      rowA).2.1 (by decide)).1,
   ((onNodeLoad_calls_loadData_iff
      (onNodeLoad (mount sampleUtil loadProps) rowA).1.comp
      rowA).2.2 (by decide)).1⟩

/-! ## Which names are props -/

theorem has_selectedKeys (p : Props) : p.has "selectedKeys" = p.selectedKeys.isSome := rfl

theorem has_checkedKeys (p : Props) : p.has "checkedKeys" = p.checkedKeys.isSome := rfl

theorem has_expandedKeys (p : Props) : p.has "expandedKeys" = p.expandedKeys.isSome := rfl

theorem has_loadedKeys (p : Props) : p.has "loadedKeys" = p.loadedKeys.isSome := rfl

theorem has_halfCheckedKeys (p : Props) : p.has "halfCheckedKeys" = false := rfl

theorem has_internalVisibleKeyLevels (p : Props) :
    p.has "internalVisibleKeyLevels" = false := rfl

theorem setUncontrolledState_nil (c : Component) : c.setUncontrolledState [] = c := rfl

theorem setUncontrolledState_cons (c : Component) (f : Field) (rest : List Field) :
    c.setUncontrolledState (f :: rest) =
      if c.props.has f.name then c.setUncontrolledState rest
      else (c.setState [f]).setUncontrolledState rest := by
  cases h : c.props.has f.name <;>
    simp [Component.setUncontrolledState, Component.setState, List.filter, h]

/-! ## C4: the selection passed to `onSelect` -/

/-- C4: with the `selected` flag of the row telling whether its key `k` is in the
selection `s`, the list passed to `onSelect` is `[k]` when `multiple` is off and
`k` is not selected, `s` with `k` appended when `multiple` is on and `k` is
absent, and `s` without any occurrence of `k`, the other keys in their order,
when `multiple` is on and `k` is present.  The list is computed from the state
and `multiple` alone, so it is the same whether or not `selectedKeys` is a prop;
`state.selectedKeys` becomes that list when `selectedKeys` is not a prop and
stays as it was when it is. -/
theorem onNodeSelect_selectedKeys (c : Component) (treeNode : NodeProps)
    (hsel : treeNode.selected = decide (treeNode.eventKey ∈ c.state.selectedKeys)) :
    ∃ (keys : List Key) (info : SelectInfo),
      (onNodeSelect c treeNode).effects =
        (if c.props.onSelect then [Effect.onSelect keys info] else []) ∧
      (c.props.multiple = false → treeNode.eventKey ∉ c.state.selectedKeys →
        keys = [treeNode.eventKey]) ∧
      (c.props.multiple = true → treeNode.eventKey ∉ c.state.selectedKeys →
        keys = c.state.selectedKeys ++ [treeNode.eventKey]) ∧
      (c.props.multiple = true → treeNode.eventKey ∈ c.state.selectedKeys →
        keys = c.state.selectedKeys.filter (fun k => k ≠ treeNode.eventKey)) ∧
      (∀ (c2 : Component), c2.state.selectedKeys = c.state.selectedKeys →
        c2.state.keyEntities = c.state.keyEntities →
        c2.props.multiple = c.props.multiple → c2.props.onSelect = c.props.onSelect →
        (onNodeSelect c2 treeNode).effects = (onNodeSelect c treeNode).effects) ∧
      (c.props.selectedKeys.isSome = false →
        (onNodeSelect c treeNode).comp.state.selectedKeys = keys) ∧
      (c.props.selectedKeys.isSome = true → (onNodeSelect c treeNode).comp = c) := by
  refine ⟨_, _, rfl, ?_, ?_, ?_, ?_, ?_, ?_⟩
  · intro hm hk
    simp [hsel, hk, hm]
  · intro hm hk
    simp [hsel, hk, hm, arrAdd]
  · intro hm hk
    simp [hsel, hk, arrDel]
  · intro c2 h1 h2 h3 h4
    simp only [onNodeSelect, h1, h2, h3, h4]
  · intro hp
    simp [onNodeSelect, setUncontrolledState_cons, setUncontrolledState_nil, Component.setState,
      Field.name, has_selectedKeys, hp, State.assign]
  · intro hp
    simp [onNodeSelect, setUncontrolledState_cons, setUncontrolledState_nil, Field.name,
      has_selectedKeys, hp]

/-- Witness of C4: on a tree with `multiple` off and nothing selected, selecting
`B` stores the selection `["B"]`. -/
theorem onNodeSelect_selectedKeys_witness :
    (onNodeSelect (mount sampleUtil selectProps) rowB).comp.state.selectedKeys = ["B"] := by
  obtain ⟨keys, info, _, h1, _, _, _, h5, _⟩ :=
    onNodeSelect_selectedKeys (mount sampleUtil selectProps) rowB (by decide)
  rw [h5 (by decide), h1 (by decide) (by decide)]
  rfl

/-! ## C5: expanded keys supplied from outside -/

/-- C5, evaluated where the code departs from it.  The tree is mounted with the
prop `expandedKeys = ["A"]`.  `onNodeDragStart` on `A` stores the expanded keys
`[]` although the prop is unchanged, and deriving the state again from the
unchanged props keeps `[]`; the hover-expansion timer then stores `["D"]`.
`onNodeExpand` and its refresh after a load, which go through
`setUncontrolledExpandedKeys`, leave the stored keys alone. -/
theorem onNodeDragStart_writes_mirrored_expandedKeys :
    (mount sampleUtil mirroredExpandProps).props.expandedKeys.map Ref.val = some ["A"] ∧
    (mount sampleUtil mirroredExpandProps).state.expandedKeys = ["A"] ∧
    (onNodeDragStart (mount sampleUtil mirroredExpandProps) midRow rowA).comp.props.expandedKeys.map
      Ref.val = some ["A"] ∧
    (onNodeDragStart (mount sampleUtil mirroredExpandProps) midRow rowA).comp.state.expandedKeys
      = [] ∧
    ((onNodeDragStart (mount sampleUtil mirroredExpandProps) midRow rowA).comp.rerender
      sampleUtil).map (fun c => c.state.expandedKeys) = some [] ∧
    (run sampleUtil (mount sampleUtil mirroredExpandProps)
      [Input.dragStart midRow rowA, Input.dragEnter midRow rowD, Input.timer 0,
       Input.timer 1]).state.expandedKeys = ["D"] ∧
    (onNodeExpand (mount sampleUtil mirroredExpandProps) rowA).1.comp.state.expandedKeys
      = ["A"] ∧
    (onNodeExpandRefresh (mount sampleUtil mirroredExpandProps) ["A", "D"]).comp.state.expandedKeys
      = ["A"] := by
  decide

/-! ## C6: checked keys supplied from outside, strict mode off -/

/-- C6 fails as stated: on a tree mounted with the prop `checkedKeys = []` and
strict mode off, checking `B` leaves `state.checkedKeys` empty but stores the
conducted half-checked keys `["A"]`, which stay stored when the state is derived
again from the unchanged props. -/
theorem onNodeCheck_mirrored_writes_halfCheckedKeys :
    (mount sampleUtil mirroredCheckProps).props.checkedKeys.isSome = true ∧
    (mount sampleUtil mirroredCheckProps).props.checkStrictly = false ∧
    (mount sampleUtil mirroredCheckProps).state.checkedKeys = [] ∧
    (mount sampleUtil mirroredCheckProps).state.halfCheckedKeys = [] ∧
    (onNodeCheck sampleUtil (mount sampleUtil mirroredCheckProps) rowB true).comp.state.checkedKeys
      = [] ∧
    (onNodeCheck sampleUtil (mount sampleUtil mirroredCheckProps) rowB
      true).comp.state.halfCheckedKeys = ["A"] ∧
    ((onNodeCheck sampleUtil (mount sampleUtil mirroredCheckProps) rowB
      true).comp.rerender sampleUtil).map (fun c => (c.state.checkedKeys, c.state.halfCheckedKeys))
      = some ([], ["A"]) := by
  decide

/-- C6 as amended: when `checkedKeys` is a prop and strict mode is off,
`onNodeCheck` leaves `state.checkedKeys` unchanged and writes exactly one state
field, `halfCheckedKeys`, which becomes the conducted half-checked list
(`halfCheckedKeys` is not a prop, so `setUncontrolledState` stores it).  The
conducted checked list is not stored; it is passed to `onCheck` when that is
supplied.  The handler completes normally. -/
theorem onNodeCheck_mirrored_state (u : Util) (c : Component) (treeNode : NodeProps)
    (checked : Bool) (hm : c.props.checkedKeys.isSome = true)
    (hs : c.props.checkStrictly = false) :
    (onNodeCheck u c treeNode checked).comp =
      { c with state := { c.state with halfCheckedKeys :=
          (u.conductCheck [treeNode.eventKey] checked c.state.keyEntities
            (some { checkedKeys := c.state.checkedKeys,
                    halfCheckedKeys := c.state.halfCheckedKeys })).halfCheckedKeys } } ∧
    (onNodeCheck u c treeNode checked).comp.state.checkedKeys = c.state.checkedKeys ∧
    (onNodeCheck u c treeNode checked).threw = false ∧
    ∃ info : CheckInfo,
      (onNodeCheck u c treeNode checked).effects =
        (if c.props.onCheck then
          [Effect.onCheck
            (CheckedObj.keys
              (u.conductCheck [treeNode.eventKey] checked c.state.keyEntities
                (some { checkedKeys := c.state.checkedKeys,
                        halfCheckedKeys := c.state.halfCheckedKeys })).checkedKeys) info]
        else []) := by
  refine ⟨?_, ?_, ?_, ?_⟩
  · simp [onNodeCheck, hs, setUncontrolledState_cons, setUncontrolledState_nil, Field.name,
      has_checkedKeys, has_halfCheckedKeys, hm, Component.setState, State.assign]
  · simp [onNodeCheck, hs, setUncontrolledState_cons, setUncontrolledState_nil, Field.name,
      has_checkedKeys, has_halfCheckedKeys, hm, Component.setState, State.assign]
  · simp [onNodeCheck, hs]
  · simp only [onNodeCheck, hs]
    exact ⟨_, rfl⟩

/-- Witness of C6 as amended, on the tree of the counterexample. -/
theorem onNodeCheck_mirrored_state_witness :
    (onNodeCheck sampleUtil (mount sampleUtil mirroredCheckProps) rowB true).comp.state.checkedKeys
      = (mount sampleUtil mirroredCheckProps).state.checkedKeys :=
  (onNodeCheck_mirrored_state sampleUtil (mount sampleUtil mirroredCheckProps) rowB true
    (by decide) (by decide)).2.1

/-! ## C7: checking in strict mode -/

theorem mem_arrAdd (list : List Key) (value x : Key) :
    x ∈ arrAdd list value ↔ x ∈ list ∨ x = value := by
  unfold arrAdd
  split
  · constructor
    · exact Or.inl
    · rintro (h | h)
      · exact h
      · subst h; assumption
  · simp

theorem mem_arrDel (list : List Key) (value x : Key) :
    x ∈ arrDel list value ↔ x ∈ list ∧ x ≠ value := by
  simp [arrDel]

theorem keyEntitiesGet_truthy (keyEntities : KeyEntities) (key : Key) :
    (keyEntitiesGet keyEntities key).truthy = true ↔
      ((entityOf keyEntities key).isSome = true ∨ key ∈ objectPrototypeNames) := by
  unfold keyEntitiesGet
  cases h : entityOf keyEntities key with
  | some e => simp [Lookup.truthy]
  | none =>
    by_cases hp : key ∈ objectPrototypeNames <;> simp [hp, Lookup.truthy]

theorem keyEntitiesGet_node (keyEntities : KeyEntities) (key : Key) :
    (keyEntitiesGet keyEntities key).node = (entityOf keyEntities key).map Entity.node := by
  unfold keyEntitiesGet
  cases h : entityOf keyEntities key with
  | some e => rfl
  | none =>
    by_cases hp : key ∈ objectPrototypeNames <;> simp [hp, Lookup.node]

theorem strictCheckedNodes_isSome (keyEntities : KeyEntities) (keys : List Key) :
    (strictCheckedNodes keyEntities keys).isSome = true ↔
      ∀ key ∈ keys, (keyEntitiesGet keyEntities key).truthy = true := by
  induction keys with
  | nil => simp [strictCheckedNodes]
  | cons key rest ih =>
    simp only [strictCheckedNodes, List.mem_cons, forall_eq_or_imp]
    cases h : keyEntitiesGet keyEntities key with
    | undefined => simp [Lookup.truthy]
    | entity e => simpa [Lookup.truthy] using ih
    | inherited => simpa [Lookup.truthy] using ih

/-- C7: in strict mode the first argument of every `onCheck` call made by
`onNodeCheck` is an object `{checked, halfChecked}` in which `checked` has the
members of the previous `checkedKeys` except possibly at the key `k` of the row,
`k` being a member iff the target value is true, and in which `halfChecked` has
no key outside the previous `halfCheckedKeys`.  The call is made when `onCheck`
is supplied and `k` and the previously checked keys have entities.  The outcome
does not depend on the helpers of `./util`, `conductCheck` among them, and the
stored `halfCheckedKeys` is unchanged. -/
theorem onNodeCheck_strict (u : Util) (c : Component) (treeNode : NodeProps) (checked : Bool)
    (hs : c.props.checkStrictly = true) :
    (∀ obj info, Effect.onCheck obj info ∈ (onNodeCheck u c treeNode checked).effects →
      ∃ keys half, obj = CheckedObj.strict keys half ∧
        (∀ x, x ≠ treeNode.eventKey → (x ∈ keys ↔ x ∈ c.state.checkedKeys)) ∧
        (treeNode.eventKey ∈ keys ↔ checked = true) ∧
        (∀ x ∈ half, x ∈ c.state.halfCheckedKeys)) ∧
    (c.props.onCheck = true →
      (∀ key ∈ treeNode.eventKey :: c.state.checkedKeys,
        (entityOf c.state.keyEntities key).isSome = true) →
      ∃ obj info, (onNodeCheck u c treeNode checked).effects = [Effect.onCheck obj info]) ∧
    (∀ u2 : Util, onNodeCheck u2 c treeNode checked = onNodeCheck u c treeNode checked) ∧
    (onNodeCheck u c treeNode checked).comp.state.halfCheckedKeys = c.state.halfCheckedKeys := by
  have hkeys : ∀ x, x ≠ treeNode.eventKey →
      (x ∈ (if checked = true then arrAdd c.state.checkedKeys treeNode.eventKey
        else arrDel c.state.checkedKeys treeNode.eventKey) ↔ x ∈ c.state.checkedKeys) := by
    intro x hx
    cases checked <;> simp [mem_arrAdd, mem_arrDel, hx]
  have hk : (treeNode.eventKey ∈ (if checked = true then
        arrAdd c.state.checkedKeys treeNode.eventKey
        else arrDel c.state.checkedKeys treeNode.eventKey) ↔ checked = true) := by
    cases checked <;> simp [mem_arrAdd, mem_arrDel]
  refine ⟨?_, ?_, ?_, ?_⟩
  · intro obj info hmem
    cases hn : strictCheckedNodes c.state.keyEntities
        (if checked = true then arrAdd c.state.checkedKeys treeNode.eventKey
          else arrDel c.state.checkedKeys treeNode.eventKey) with
    | none =>
      simp only [onNodeCheck, hs, if_true, hn] at hmem
      cases hmem
    | some nodes =>
      cases ho : c.props.onCheck with
      | false =>
        simp only [onNodeCheck, hs, if_true, hn, ho] at hmem
        cases hmem
      | true =>
        simp only [onNodeCheck, hs, if_true, hn, ho, List.mem_singleton,
          Effect.onCheck.injEq] at hmem
        obtain ⟨rfl, _⟩ := hmem
        exact ⟨_, _, rfl, hkeys, hk, fun x hx => ((mem_arrDel _ _ _).1 hx).1⟩
  · intro ho hent
    have hall : (strictCheckedNodes c.state.keyEntities
        (if checked = true then arrAdd c.state.checkedKeys treeNode.eventKey
          else arrDel c.state.checkedKeys treeNode.eventKey)).isSome = true := by
      rw [strictCheckedNodes_isSome]
      intro key hkey
      refine (keyEntitiesGet_truthy _ _).2 (Or.inl ?_)
      apply hent
      rw [List.mem_cons]
      cases checked
      · exact Or.inr ((mem_arrDel _ _ _).1 (by simpa using hkey)).1
      · exact ((mem_arrAdd _ _ _).1 (by simpa using hkey)).symm
    obtain ⟨nodes, hnodes⟩ := Option.isSome_iff_exists.1 hall
    simp only [onNodeCheck, hs, if_true, hnodes, ho]
    exact ⟨_, _, rfl⟩
  · intro u2
    simp only [onNodeCheck, hs, if_true]
  · simp only [onNodeCheck, hs, if_true]
    split
    · simp [setUncontrolledState_cons, setUncontrolledState_nil, Field.name]
      split <;> simp [Component.setState, State.assign]
    · rfl

/-- Witness of C7: on a strict tree with `B` checked, unchecking `B` passes the
empty checked list to `onCheck`. -/
theorem onNodeCheck_strict_witness :
    ∃ obj info,
      (onNodeCheck sampleUtil
        (mount sampleUtil strictProps) rowB false).effects = [Effect.onCheck obj info] :=
  (onNodeCheck_strict sampleUtil _ _ false (by decide)).2.1 (by decide) (by decide)

/-! ## C8: a drag-leave and the hover-expansion timer -/

/-- C8 fails as stated: `A` is dragged over `D`, the deferred step of the
drag-enter schedules the hover-expansion timer (id 1), and the pointer leaves
`D` before the timer fires.  The timer is still pending after the drag-leave;
when it fires, `D` is added to the expanded keys and `onDragEnter` is called. -/
theorem onNodeDragLeave_timer_still_fires :
    (run sampleUtil (mount sampleUtil ownedProps)
      [Input.dragStart midRow rowA, Input.dragEnter midRow rowD, Input.timer 0,
       Input.dragLeave midRow rowD]).timers.map (fun t => (t.id, t.delay, t.task.isExpand))
      = [(1, 400, true)] ∧
    "D" ∉ (run sampleUtil (mount sampleUtil ownedProps)
      [Input.dragStart midRow rowA, Input.dragEnter midRow rowD, Input.timer 0,
       Input.dragLeave midRow rowD]).state.expandedKeys ∧
    "D" ∈ (step sampleUtil
      (run sampleUtil (mount sampleUtil ownedProps)
        [Input.dragStart midRow rowA, Input.dragEnter midRow rowD, Input.timer 0,
         Input.dragLeave midRow rowD]) (Input.timer 1)).comp.state.expandedKeys ∧
    (step sampleUtil
      (run sampleUtil (mount sampleUtil ownedProps)
        [Input.dragStart midRow rowA, Input.dragEnter midRow rowD, Input.timer 0,
         Input.dragLeave midRow rowD]) (Input.timer 1)).effects.map Effect.isOnDragEnter
      = [true] := by
  decide

/-- C8 as amended: `onNodeDragLeave` cancels nothing.  It sets `dragOverNodeKey`
to the empty string, calls `onDragLeave` when supplied, and leaves the pending
timers and `delayedDragEnterLogic` as they are.  A hover-expansion timer that
was pending before the drag-leave fires afterwards as it would have without it:
the key of its target is added to the expanded keys captured at the drag-enter,
and `onDragEnter` is called with them when it was supplied. -/
theorem onNodeDragLeave_keeps_timers (c : Component) (event : Event) (node : NodeProps) :
    (onNodeDragLeave c event node).comp =
      { c with state := { c.state with dragOverNodeKey := some "" } } ∧
    (onNodeDragLeave c event node).effects =
      (if c.props.onDragLeave then [Effect.onDragLeave event node] else []) ∧
    (onNodeDragLeave c event node).comp.timers = c.timers ∧
    (onNodeDragLeave c event node).comp.delayedDragEnterLogic = c.delayedDragEnterLogic ∧
    ∀ (t : Timer) (cl : DragEnterClosure),
      c.timers.find? (fun x => x.id == t.id) = some t →
      t.task = Task.dragEnterExpand cl →
      (fireTimer (onNodeDragLeave c event node).comp t.id).comp.state.expandedKeys =
        arrAdd cl.expandedKeys cl.node.eventKey ∧
      cl.node.eventKey ∈
        (fireTimer (onNodeDragLeave c event node).comp t.id).comp.state.expandedKeys ∧
      (fireTimer (onNodeDragLeave c event node).comp t.id).effects =
        (if cl.onDragEnter then
          [Effect.onDragEnter cl.event cl.node (arrAdd cl.expandedKeys cl.node.eventKey)]
        else []) := by
  refine ⟨rfl, rfl, rfl, rfl, ?_⟩
  intro t cl hfind htask
  have hfind2 : (onNodeDragLeave c event node).comp.timers.find? (fun x => x.id == t.id)
      = some t := hfind
  have hfire : fireTimer (onNodeDragLeave c event node).comp t.id =
      runTask ((onNodeDragLeave c event node).comp.clearTimeout t.id)
        (Task.dragEnterExpand cl) := by
    simp only [fireTimer, hfind2, htask]
  rw [hfire]
  exact ⟨rfl, (mem_arrAdd _ _ _).2 (Or.inr rfl), rfl⟩

/-- Witness of C8 as amended, on the run of the counterexample: after the
drag-leave, firing the pending timer 1 adds `D`. -/
theorem onNodeDragLeave_keeps_timers_witness :
    "D" ∈ (fireTimer
      (onNodeDragLeave
        (run sampleUtil (mount sampleUtil ownedProps)
          [Input.dragStart midRow rowA, Input.dragEnter midRow rowD, Input.timer 0])
        midRow rowD).comp 1).comp.state.expandedKeys :=
  ((onNodeDragLeave_keeps_timers
      (run sampleUtil (mount sampleUtil ownedProps)
        [Input.dragStart midRow rowA, Input.dragEnter midRow rowD, Input.timer 0])
      midRow rowD).2.2.2.2
    { id := 1, delay := 400,
      task := Task.dragEnterExpand
        { event := midRow, node := rowD, expandedKeys := [], onDragEnter := true,
          dropPosition := 0 } }
    { event := midRow, node := rowD, expandedKeys := [], onDragEnter := true, dropPosition := 0 }
    rfl rfl).2.1

/-! ## C9: what `onNodeDrop` reports -/

/-- C9: for a drop that is not vetoed, on a target whose position path ends in
the sibling index `i`, while the stored drop position is the number `d`,
`onNodeDrop` changes nothing of the component but `state.dragOverNodeKey`, which
becomes the empty string (so the forest and the entity maps are unchanged), and,
when `onDrop` is supplied, calls it once with `dropPosition = d + i`, with
`dropToGap` true exactly when `d` is not 0, and with the recorded dragged
keys. -/
theorem onNodeDrop_result (c : Component) (event : Event) (node : NodeProps) (d : Int)
    (i : Nat) (hveto : node.eventKey ∉ c.state.dragNodesKeys.getD [])
    (hd : c.state.dropPosition = DropPos.num d) (hp : node.pos.getLast? = some i) :
    (onNodeDrop c event node).comp =
      { c with state := { c.state with dragOverNodeKey := some "" } } ∧
    (onNodeDrop c event node).comp.state.treeNode = c.state.treeNode ∧
    (onNodeDrop c event node).comp.state.keyEntities = c.state.keyEntities ∧
    (onNodeDrop c event node).comp.state.posEntities = c.state.posEntities ∧
    (c.props.onDrop = false → (onNodeDrop c event node).effects = []) ∧
    (c.props.onDrop = true →
      ∃ r : DropResult, (onNodeDrop c event node).effects = [Effect.onDrop r] ∧
        r.dropPosition = some (d + i) ∧
        (r.dropToGap = some true ↔ d ≠ 0) ∧
        r.dragNodesKeys = c.state.dragNodesKeys.getD [] ∧
        r.node = node ∧ r.dragNode = c.dragNode) := by
  refine ⟨?_, ?_, ?_, ?_, ?_, ?_⟩
  · simp only [onNodeDrop, hveto, if_false]
    rfl
  · simp only [onNodeDrop, hveto, if_false]
    rfl
  · simp only [onNodeDrop, hveto, if_false]
    rfl
  · simp only [onNodeDrop, hveto, if_false]
    rfl
  · intro ho
    simp [onNodeDrop, hveto, ho]
  · intro ho
    simp only [onNodeDrop, hveto, if_false, ho, if_true]
    refine ⟨_, rfl, ?_, ?_, rfl, rfl, rfl⟩
    · simp [hd, addDropPosition, lastIndex, posToArr, hp]
    · simp only [hd]
      by_cases h0 : d = 0
      · simp [h0]
      · simp [h0]

/-- Witness of C9: after dragging `A` and hovering the middle of `D`, whose
position path is `0-1`, the drop reports position 1 and no gap. -/
theorem onNodeDrop_result_witness :
    ∃ r : DropResult,
      (onNodeDrop
        (run sampleUtil (mount sampleUtil ownedProps)
          [Input.dragStart midRow rowA, Input.dragEnter midRow rowD, Input.timer 0])
        midRow rowD).effects = [Effect.onDrop r] ∧
      r.dropPosition = some ((0 : Int) + (1 : Nat)) ∧
      (r.dropToGap = some true ↔ (0 : Int) ≠ 0) ∧
      r.dragNodesKeys =
        (run sampleUtil (mount sampleUtil ownedProps)
          [Input.dragStart midRow rowA, Input.dragEnter midRow rowD,
           Input.timer 0]).state.dragNodesKeys.getD [] ∧
      r.node = rowD ∧
      r.dragNode =
        (run sampleUtil (mount sampleUtil ownedProps)
          [Input.dragStart midRow rowA, Input.dragEnter midRow rowD, Input.timer 0]).dragNode :=
  (onNodeDrop_result
    (run sampleUtil (mount sampleUtil ownedProps)
      [Input.dragStart midRow rowA, Input.dragEnter midRow rowD, Input.timer 0])
    midRow rowD 0 1 (by decide) (by decide) (by decide)).2.2.2.2.2 (by decide)

/-! ## Frame lemmas: the loading keys

Only `onNodeLoad` and the fulfilment of a load write `loadingKeys`. -/

theorem setState_loadingKeys (c : Component) (patch : List Field)
    (h : ∀ f ∈ patch, f.name ≠ "loadingKeys") :
    (c.setState patch).state.loadingKeys = c.state.loadingKeys := by
  unfold Component.setState
  simp only
  generalize c.state = s
  induction patch generalizing s with
  | nil => rfl
  | cons f rest ih =>
    simp only [List.foldl_cons]
    rw [ih (fun g hg => h g (List.mem_cons_of_mem _ hg))]
    have := h f (List.mem_cons_self _ _)
    cases f <;> simp_all [State.assign, Field.name]

theorem setUncontrolledState_loadingKeys (c : Component) (patch : List Field)
    (h : ∀ f ∈ patch, f.name ≠ "loadingKeys") :
    (c.setUncontrolledState patch).state.loadingKeys = c.state.loadingKeys :=
  setState_loadingKeys c _ (fun f hf => h f (List.mem_of_mem_filter hf))

theorem setUncontrolledExpandedKeys_loadingKeys (c : Component) (ks : List Key) :
    (c.setUncontrolledExpandedKeys ks).state.loadingKeys = c.state.loadingKeys := by
  unfold Component.setUncontrolledExpandedKeys
  split
  · exact setUncontrolledState_loadingKeys c _ (by simp [Field.name])
  · rfl

theorem getDerivedStateFromProps_loadingKeys (u : Util) (props : Props) (s s' : State)
    (h : getDerivedStateFromProps u props s = some s') :
    s'.loadingKeys = s.loadingKeys := by
  unfold getDerivedStateFromProps at h
  simp only at h
  split at h
  · cases h
  · have h5 : ∀ (t t' : State), storeLoadedKeys props s.prevProps t = some t' →
        t'.loadingKeys = t.loadingKeys := by
      intro t t' ht
      unfold storeLoadedKeys at ht
      split at ht
      · split at ht
        · cases ht; rfl
        · cases ht
      · cases ht; rfl
    have h4 : ∀ (e : Option CheckedKeyEntity) (t : State),
        (storeCheckedKeys u props e t).loadingKeys = t.loadingKeys := by
      intro e t
      unfold storeCheckedKeys
      repeat' split
      all_goals rfl
    have h3 : ∀ (t : State),
        (storeSelectedKeys u props s.prevProps t).loadingKeys = t.loadingKeys := by
      intro t
      unfold storeSelectedKeys
      repeat' split
      all_goals rfl
    have h2 : ∀ (b : Bool) (t : State), (storeVisible b t).loadingKeys = t.loadingKeys := by
      intro b t
      unfold storeVisible
      split <;> rfl
    have h1 : ∀ (ks : Option (List Key)) (t : State),
        (storeExpandedKeys ks t).loadingKeys = t.loadingKeys := by
      intro ks t
      unfold storeExpandedKeys
      split <;> rfl
    have h0 : ∀ (tn : Option (List TreeNode)) (t : State),
        (storeTreeNode u tn t).loadingKeys = t.loadingKeys := by
      intro tn t
      unfold storeTreeNode
      split <;> rfl
    rw [h5 _ _ h, h4, h3, h2, h1, h0]

theorem onNodeLoad_loadingKeys_mem (c : Component) (n : NodeProps) (k : Key)
    (hk : k ∈ c.state.loadingKeys) : k ∈ (onNodeLoad c n).1.comp.state.loadingKeys := by
  unfold onNodeLoad
  simp only []
  split
  · exact hk
  · simp only [Component.setState, List.foldl_cons, List.foldl_nil, State.assign]
    exact (mem_arrAdd _ _ _).2 (Or.inl hk)

theorem step_loadingKeys_mem (u : Util) (c : Component) (i : Input) (k : Key)
    (h : i.fulfils k = false) (hk : k ∈ c.state.loadingKeys) :
    k ∈ (step u c i).comp.state.loadingKeys := by
  cases i with
  | props p =>
    simp only [step, Component.receiveProps]
    cases hg : getDerivedStateFromProps u p c.state with
    | none => exact hk
    | some s =>
      simp only [Option.map_some', Option.getD_some]
      rw [getDerivedStateFromProps_loadingKeys u p c.state s hg]
      exact hk
  | dragStart e n =>
    simp only [step, onNodeDragStart]
    rw [setState_loadingKeys _ _ (by simp [Field.name])]
    exact hk
  | dragEnter e n =>
    simp only [step, onNodeDragEnter]
    split
    · exact hk
    · split
      · rw [setState_loadingKeys _ _ (by simp [Field.name])]
        exact hk
      · exact hk
  | dragOver e n =>
    simp only [step, onNodeDragOver]
    split
    · split
      · exact hk
      · rw [setState_loadingKeys _ _ (by simp [Field.name])]
        exact hk
    · exact hk
  | dragLeave e n =>
    simp only [step, onNodeDragLeave]
    rw [setState_loadingKeys _ _ (by simp [Field.name])]
    exact hk
  | dragEnd e n =>
    simp only [step, onNodeDragEnd]
    rw [setState_loadingKeys _ _ (by simp [Field.name])]
    exact hk
  | drop e n =>
    simp only [step, onNodeDrop]
    split <;>
    · rw [setState_loadingKeys _ _ (by simp [Field.name])]
      exact hk
  | timer id =>
    simp only [step, fireTimer]
    split
    · exact hk
    · rename_i t _
      cases t.task with
      | dragEnterDeferred cl =>
        simp only [runTask, Component.setTimeout]
        rw [foldl_clearTimeout_state, setState_loadingKeys _ _ (by simp [Field.name])]
        exact hk
      | dragEnterExpand cl =>
        simp only [runTask]
        rw [setState_loadingKeys _ _ (by simp [Field.name])]
        exact hk
  | select n =>
    simp only [step, onNodeSelect]
    rw [setUncontrolledState_loadingKeys _ _ (by simp [Field.name])]
    exact hk
  | check n checked =>
    simp only [step, onNodeCheck]
    split
    · split
      · rw [setUncontrolledState_loadingKeys _ _ (by simp [Field.name])]
        exact hk
      · exact hk
    · rw [setUncontrolledState_loadingKeys _ _ (by simp [Field.name])]
      exact hk
  | expand n =>
    simp only [step, onNodeExpand]
    split
    · exact onNodeLoad_loadingKeys_mem _ n k
        (by rw [setUncontrolledExpandedKeys_loadingKeys]; exact hk)
    · rw [setUncontrolledExpandedKeys_loadingKeys]
      exact hk
  | load n => exact onNodeLoad_loadingKeys_mem c n k hk
  | loadSettled p f =>
    cases f with
    | false => exact hk
    | true =>
      have hne : p.treeNode.eventKey ≠ k := by
        simpa [Input.fulfils] using h
      simp only [step, settleLoad, if_true, onNodeLoadFulfilled, Component.setState,
        List.foldl_cons, List.foldl_nil, State.assign]
      rw [mem_arrDel, setUncontrolledState_loadingKeys _ _ (by simp [Field.name])]
      exact ⟨hk, fun h => hne h.symm⟩
  | expandRefresh ks =>
    simp only [step, onNodeExpandRefresh]
    rw [setUncontrolledExpandedKeys_loadingKeys]
    exact hk

theorem run_loadingKeys_mem (u : Util) (inputs : List Input) (c : Component) (k : Key)
    (h : ∀ i ∈ inputs, i.fulfils k = false) (hk : k ∈ c.state.loadingKeys) :
    k ∈ (run u c inputs).state.loadingKeys := by
  induction inputs generalizing c with
  | nil => exact hk
  | cons i rest ih =>
    simp only [run, List.foldl_cons]
    exact ih (step u c i).comp (fun j hj => h j (List.mem_cons_of_mem _ hj))
      (step_loadingKeys_mem u c i k (h i (List.mem_cons_self _ _)) hk)

/-! ## C10: the settlement of a load -/

/-- C10: let `onNodeLoad` start a load of the key `k`, and let any events follow
that do not fulfil a load of `k`.  Then `k` is still in `loadingKeys`.  If the
promise is then fulfilled, `k` leaves `loadingKeys`, `k` is in `loadedKeys` when
`loadedKeys` is not a prop, and `onLoad`, when it was supplied, is called once
with loaded keys that contain `k`.  If the promise is rejected, nothing of the
component changes: `k` stays in `loadingKeys` and `loadedKeys` is as before.  So
after the settlement `k` is in `loadingKeys` if and only if the promise was
rejected. -/
theorem onNodeLoad_settlement (u : Util) (c : Component) (treeNode : NodeProps)
    (p : LoadPromise) (inputs : List Input)
    (hstart : (onNodeLoad c treeNode).2 = some p)
    (hpending : ∀ i ∈ inputs, i.fulfils treeNode.eventKey = false) :
    treeNode.eventKey ∈ (run u (onNodeLoad c treeNode).1.comp inputs).state.loadingKeys ∧
    treeNode.eventKey ∉
      (settleLoad (run u (onNodeLoad c treeNode).1.comp inputs) p true).comp.state.loadingKeys ∧
    ((run u (onNodeLoad c treeNode).1.comp inputs).props.loadedKeys.isSome = false →
      treeNode.eventKey ∈
        (settleLoad (run u (onNodeLoad c treeNode).1.comp inputs) p true).comp.state.loadedKeys) ∧
    (c.props.onLoad = true →
      ∃ keys, (settleLoad (run u (onNodeLoad c treeNode).1.comp inputs) p true).effects =
          [Effect.onLoad keys treeNode] ∧ treeNode.eventKey ∈ keys) ∧
    (settleLoad (run u (onNodeLoad c treeNode).1.comp inputs) p false).comp =
      run u (onNodeLoad c treeNode).1.comp inputs ∧
    (settleLoad (run u (onNodeLoad c treeNode).1.comp inputs) p false).effects = [] ∧
    treeNode.eventKey ∈
      (settleLoad (run u (onNodeLoad c treeNode).1.comp inputs) p false).comp.state.loadingKeys ∧
    (settleLoad (run u (onNodeLoad c treeNode).1.comp inputs) p false).comp.state.loadedKeys =
      (run u (onNodeLoad c treeNode).1.comp inputs).state.loadedKeys ∧
    (∀ fulfilled : Bool,
      treeNode.eventKey ∈
        (settleLoad (run u (onNodeLoad c treeNode).1.comp inputs) p
          fulfilled).comp.state.loadingKeys ↔ fulfilled = false) := by
  have hp : p = { treeNode := treeNode, onLoad := c.props.onLoad } ∧
      treeNode.eventKey ∈ (onNodeLoad c treeNode).1.comp.state.loadingKeys := by
    unfold onNodeLoad at hstart ⊢
    simp only [] at hstart ⊢
    split at hstart
    · cases hstart
    · rename_i hcond
      simp only [Option.some.injEq] at hstart
      refine ⟨hstart.symm, ?_⟩
      simp only [hcond, if_false, Component.setState, List.foldl_cons, List.foldl_nil,
        State.assign]
      exact (mem_arrAdd _ _ _).2 (Or.inr rfl)
  obtain ⟨hpeq, hin⟩ := hp
  have hrun := run_loadingKeys_mem u inputs _ treeNode.eventKey hpending hin
  have hkey : p.treeNode.eventKey = treeNode.eventKey := by rw [hpeq]
  have hout : treeNode.eventKey ∉
      (settleLoad (run u (onNodeLoad c treeNode).1.comp inputs) p true).comp.state.loadingKeys := by
    simp only [settleLoad, if_true, onNodeLoadFulfilled, Component.setState, List.foldl_cons,
      List.foldl_nil, State.assign, hkey, mem_arrDel]
    exact fun h => h.2 rfl
  refine ⟨hrun, hout, ?_, ?_, rfl, rfl, hrun, rfl, ?_⟩
  · intro howned
    simp only [settleLoad, if_true, onNodeLoadFulfilled, Component.setState, List.foldl_cons,
      List.foldl_nil, State.assign, hkey]
    rw [setUncontrolledState_cons, setUncontrolledState_nil]
    simp only [Field.name, has_loadedKeys, howned, Component.setState, List.foldl_cons,
      List.foldl_nil, State.assign]
    exact (mem_arrAdd _ _ _).2 (Or.inr rfl)
  · intro ho
    refine ⟨arrAdd (run u (onNodeLoad c treeNode).1.comp inputs).state.loadedKeys
      treeNode.eventKey, ?_, (mem_arrAdd _ _ _).2 (Or.inr rfl)⟩
    simp only [settleLoad, if_true, onNodeLoadFulfilled, hpeq, ho]
  · intro fulfilled
    cases fulfilled with
    | false => simpa using hrun
    | true => simpa using hout

/-- Witness of C10: a load of `A` is started on a mounted tree, the user selects
`B` meanwhile, and the promise is then fulfilled; `onLoad` is called once. -/
theorem onNodeLoad_settlement_witness :
    ∃ keys,
      (settleLoad
        (run sampleUtil (onNodeLoad (mount sampleUtil loadProps) rowA).1.comp [Input.select rowB])
        { treeNode := rowA, onLoad := true } true).effects = [Effect.onLoad keys rowA] ∧
      rowA.eventKey ∈ keys :=
  (onNodeLoad_settlement sampleUtil (mount sampleUtil loadProps) rowA
    { treeNode := rowA, onLoad := true } [Input.select rowB] rfl (by decide)).2.2.2.1
    (by decide)

/-! ## C11: a drag-enter on the dragged node itself -/

/-- C11: when the key of the target is the key of the dragged node and the
resolved drop position is 0, `onNodeDragEnter` writes `dragOverNodeKey = ""` and
`dropPosition = null` and nothing else: the pending timers and
`delayedDragEnterLogic` are as before, so no timer is scheduled, the expanded
keys are as before, and no callback is called.  When no node is being dragged
the component is unchanged and no callback is called. -/
theorem onNodeDragEnter_self (u : Util) (c : Component) (event : Event) (node : NodeProps) :
    (∀ dragNode : NodeProps, c.dragNode = some dragNode →
      dragNode.eventKey = node.eventKey → u.calcDropPosition event node = 0 →
      (onNodeDragEnter u c event node).comp =
        { c with state :=
            { c.state with dragOverNodeKey := some "", dropPosition := DropPos.null } } ∧
      (onNodeDragEnter u c event node).effects = [] ∧
      (onNodeDragEnter u c event node).comp.timers = c.timers ∧
      (onNodeDragEnter u c event node).comp.nextTimerId = c.nextTimerId ∧
      (onNodeDragEnter u c event node).comp.delayedDragEnterLogic = c.delayedDragEnterLogic ∧
      (onNodeDragEnter u c event node).comp.state.expandedKeys = c.state.expandedKeys ∧
      (onNodeDragEnter u c event node).comp.state.dragOverNodeKey = some "" ∧
      (onNodeDragEnter u c event node).comp.state.dropPosition = DropPos.null) ∧
    (c.dragNode = none →
      (onNodeDragEnter u c event node).comp = c ∧
      (onNodeDragEnter u c event node).effects = []) := by
  constructor
  · intro dragNode hdrag hkey hpos
    have hcond : dragNode.eventKey = node.eventKey ∧ u.calcDropPosition event node = 0 :=
      ⟨hkey, hpos⟩
    have h : onNodeDragEnter u c event node =
        { comp := c.setState [Field.dragOverNodeKey "", Field.dropPosition DropPos.null] } := by
      simp only [onNodeDragEnter, hdrag, hcond, and_self, if_true]
    rw [h]
    exact ⟨rfl, rfl, rfl, rfl, rfl, rfl, rfl, rfl⟩
  · intro hnone
    have h : onNodeDragEnter u c event node = { comp := c } := by
      simp only [onNodeDragEnter, hnone]
    rw [h]
    exact ⟨rfl, rfl⟩

/-- Witness of C11: `A` is dragged and the pointer enters the middle of `A`
itself; no timer is pending afterwards. -/
theorem onNodeDragEnter_self_witness :
    (onNodeDragEnter sampleUtil (onNodeDragStart (mount sampleUtil ownedProps) midRow rowA).comp
      midRow rowA).comp.timers =
      (onNodeDragStart (mount sampleUtil ownedProps) midRow rowA).comp.timers ∧
    (onNodeDragEnter sampleUtil (mount sampleUtil ownedProps) midRow rowA).effects = [] :=
  ⟨((onNodeDragEnter_self sampleUtil
      (onNodeDragStart (mount sampleUtil ownedProps) midRow rowA).comp midRow rowA).1
      rowA rfl rfl (by decide)).2.2.1,
   ((onNodeDragEnter_self sampleUtil (mount sampleUtil ownedProps) midRow rowA).2 rfl).2⟩

/-! ## C12: at most one hover-expansion timer

The invariant: every pending hover-expansion timer has its id stored in
`delayedDragEnterLogic`, and there is at most one such timer. -/

theorem foldl_clearTimeout_timers (ids : List (Pos × Nat)) (c : Component) :
    (ids.foldl (fun acc e => acc.clearTimeout e.2) c).timers =
      c.timers.filter (fun t => t.id ∉ ids.map Prod.snd) := by
  induction ids generalizing c with
  | nil => simp
  | cons e rest ih =>
    rw [List.foldl_cons, ih]
    show (c.timers.filter (fun t => decide (t.id ≠ e.2))).filter _ = _
    rw [List.filter_filter]
    apply List.filter_congr
    intro t _
    by_cases h1 : t.id = e.2 <;> by_cases h2 : t.id ∈ rest.map Prod.snd <;> simp [h1, h2]

theorem foldl_clearTimeout_frame (ids : List (Pos × Nat)) (c : Component) :
    (ids.foldl (fun acc e => acc.clearTimeout e.2) c).nextTimerId = c.nextTimerId ∧
    (ids.foldl (fun acc e => acc.clearTimeout e.2) c).delayedDragEnterLogic =
      c.delayedDragEnterLogic := by
  induction ids generalizing c with
  | nil => exact ⟨rfl, rfl⟩
  | cons e rest ih =>
    simp only [List.foldl_cons]
    exact ⟨(ih _).1.trans rfl, (ih _).2.trans rfl⟩

theorem mem_setEntry (object : List (Pos × Nat)) (pos : Pos) (id : Nat) :
    (pos, id) ∈ setEntry object pos id := by
  unfold setEntry
  split
  · rename_i h
    obtain ⟨e, he, hpos⟩ := List.any_eq_true.1 h
    exact List.mem_map.2 ⟨e, he, by simp [hpos]⟩
  · simp

theorem runTask_dragEnterDeferred_timers (c : Component) (cl : DragEnterClosure) :
    (runTask c (Task.dragEnterDeferred cl)).comp.timers =
      c.timers.filter (fun t => t.id ∉ storedTimerIds c) ++
        [{ id := c.nextTimerId, delay := 400, task := Task.dragEnterExpand cl }] ∧
    (runTask c (Task.dragEnterDeferred cl)).comp.delayedDragEnterLogic =
      some (setEntry (c.delayedDragEnterLogic.getD []) cl.node.pos c.nextTimerId) := by
  simp only [runTask, Component.setTimeout, foldl_clearTimeout_timers, storedTimerIds,
    (foldl_clearTimeout_frame _ _).1]
  exact ⟨rfl, rfl⟩

/-- The invariant of the timer queue. -/
theorem timersTracked_of_frame (c c2 : Component)
    (hsub : ∀ t ∈ pendingExpandTimers c2, t ∈ pendingExpandTimers c)
    (hlen : (pendingExpandTimers c2).length ≤ (pendingExpandTimers c).length)
    (hlogic : c2.delayedDragEnterLogic = c.delayedDragEnterLogic)
    (h : (pendingExpandTimers c).length ≤ 1 ∧
      ∀ t ∈ pendingExpandTimers c, t.id ∈ storedTimerIds c) :
    (pendingExpandTimers c2).length ≤ 1 ∧
      ∀ t ∈ pendingExpandTimers c2, t.id ∈ storedTimerIds c2 := by
  refine ⟨le_trans hlen h.1, fun t ht => ?_⟩
  have := h.2 t (hsub t ht)
  simpa [storedTimerIds, hlogic] using this

theorem timersTracked_of_eq (c c2 : Component) (htimers : c2.timers = c.timers)
    (hlogic : c2.delayedDragEnterLogic = c.delayedDragEnterLogic)
    (h : (pendingExpandTimers c).length ≤ 1 ∧
      ∀ t ∈ pendingExpandTimers c, t.id ∈ storedTimerIds c) :
    (pendingExpandTimers c2).length ≤ 1 ∧
      ∀ t ∈ pendingExpandTimers c2, t.id ∈ storedTimerIds c2 := by
  have hp : pendingExpandTimers c2 = pendingExpandTimers c := by
    simp [pendingExpandTimers, htimers]
  exact timersTracked_of_frame c c2 (fun t ht => hp ▸ ht) (le_of_eq (by rw [hp])) hlogic h

theorem timersTracked_clearTimeout (c : Component) (id : Nat)
    (h : (pendingExpandTimers c).length ≤ 1 ∧
      ∀ t ∈ pendingExpandTimers c, t.id ∈ storedTimerIds c) :
    (pendingExpandTimers (c.clearTimeout id)).length ≤ 1 ∧
      ∀ t ∈ pendingExpandTimers (c.clearTimeout id), t.id ∈ storedTimerIds (c.clearTimeout id) := by
  have hp : pendingExpandTimers (c.clearTimeout id) =
      (pendingExpandTimers c).filter (fun t => t.id ≠ id) := by
    show (c.timers.filter (fun t => decide (t.id ≠ id))).filter _ = _
    simp only [pendingExpandTimers, List.filter_filter]
    apply List.filter_congr
    intro t _
    exact Bool.and_comm _ _
  refine timersTracked_of_frame c _ ?_ ?_ rfl h
  · intro t ht
    rw [hp] at ht
    exact List.mem_of_mem_filter ht
  · rw [hp]
    exact List.length_filter_le _ _

theorem timersTracked_runTask (c : Component) (task : Task)
    (h : (pendingExpandTimers c).length ≤ 1 ∧
      ∀ t ∈ pendingExpandTimers c, t.id ∈ storedTimerIds c) :
    (pendingExpandTimers (runTask c task).comp).length ≤ 1 ∧
      ∀ t ∈ pendingExpandTimers (runTask c task).comp,
        t.id ∈ storedTimerIds (runTask c task).comp := by
  cases task with
  | dragEnterExpand cl => exact timersTracked_of_eq c _ rfl rfl h
  | dragEnterDeferred cl =>
    obtain ⟨ht, hl⟩ := runTask_dragEnterDeferred_timers c cl
    have hp : pendingExpandTimers (runTask c (Task.dragEnterDeferred cl)).comp =
        [{ id := c.nextTimerId, delay := 400, task := Task.dragEnterExpand cl }] := by
      have h1 : (c.timers.filter (fun t => decide (t.id ∉ storedTimerIds c))).filter
          (fun t => t.task.isExpand) = [] := by
        rw [List.filter_eq_nil_iff]
        intro t htm hexp
        have hm := List.mem_filter.1 htm
        have hmem : t ∈ pendingExpandTimers c := List.mem_filter.2 ⟨hm.1, hexp⟩
        have hstored := h.2 t hmem
        simp [hstored] at hm
      show List.filter _ (runTask c (Task.dragEnterDeferred cl)).comp.timers = _
      rw [ht, List.filter_append, h1]
      rfl
    rw [hp]
    refine ⟨by simp, ?_⟩
    intro t htm
    rw [List.mem_singleton] at htm
    subst htm
    simp only [storedTimerIds, hl, Option.getD_some, List.mem_map]
    exact ⟨(cl.node.pos, c.nextTimerId), mem_setEntry _ _ _, rfl⟩

theorem timersTracked_of_pending_eq (c c2 : Component)
    (hp : pendingExpandTimers c2 = pendingExpandTimers c)
    (hlogic : c2.delayedDragEnterLogic = c.delayedDragEnterLogic)
    (h : (pendingExpandTimers c).length ≤ 1 ∧
      ∀ t ∈ pendingExpandTimers c, t.id ∈ storedTimerIds c) :
    (pendingExpandTimers c2).length ≤ 1 ∧
      ∀ t ∈ pendingExpandTimers c2, t.id ∈ storedTimerIds c2 :=
  timersTracked_of_frame c c2 (fun t ht => hp ▸ ht) (le_of_eq (by rw [hp])) hlogic h

theorem setUncontrolledExpandedKeys_timers (c : Component) (ks : List Key) :
    (c.setUncontrolledExpandedKeys ks).timers = c.timers ∧
    (c.setUncontrolledExpandedKeys ks).delayedDragEnterLogic = c.delayedDragEnterLogic := by
  unfold Component.setUncontrolledExpandedKeys
  split <;> exact ⟨rfl, rfl⟩

theorem onNodeLoad_timers (c : Component) (n : NodeProps) :
    (onNodeLoad c n).1.comp.timers = c.timers ∧
    (onNodeLoad c n).1.comp.delayedDragEnterLogic = c.delayedDragEnterLogic := by
  unfold onNodeLoad
  simp only []
  split <;> exact ⟨rfl, rfl⟩

theorem step_timersTracked (u : Util) (c : Component) (i : Input)
    (h : (pendingExpandTimers c).length ≤ 1 ∧
      ∀ t ∈ pendingExpandTimers c, t.id ∈ storedTimerIds c) :
    (pendingExpandTimers (step u c i).comp).length ≤ 1 ∧
      ∀ t ∈ pendingExpandTimers (step u c i).comp, t.id ∈ storedTimerIds (step u c i).comp := by
  cases i with
  | props p =>
    refine timersTracked_of_eq c _ ?_ ?_ h <;>
    · simp only [step, Component.receiveProps]
      cases getDerivedStateFromProps u p c.state <;> rfl
  | dragStart e n => exact timersTracked_of_eq c _ rfl rfl h
  | dragEnter e n =>
    simp only [step, onNodeDragEnter]
    split
    · exact h
    · split
      · exact timersTracked_of_eq c _ rfl rfl h
      · refine timersTracked_of_pending_eq c _ ?_ rfl h
        show List.filter _ (c.timers ++ [_]) = _
        rw [List.filter_append]
        exact List.append_nil _
  | dragOver e n =>
    simp only [step, onNodeDragOver]
    split
    · split
      · exact h
      · exact timersTracked_of_eq c _ rfl rfl h
    · exact h
  | dragLeave e n => exact timersTracked_of_eq c _ rfl rfl h
  | dragEnd e n => exact timersTracked_of_eq c _ rfl rfl h
  | drop e n =>
    simp only [step, onNodeDrop]
    split <;> exact timersTracked_of_eq c _ rfl rfl h
  | timer id =>
    simp only [step, fireTimer]
    split
    · exact h
    · exact timersTracked_runTask _ _ (timersTracked_clearTimeout c id h)
  | select n => exact timersTracked_of_eq c _ rfl rfl h
  | check n checked =>
    simp only [step, onNodeCheck]
    split
    · split
      · exact timersTracked_of_eq c _ rfl rfl h
      · exact h
    · exact timersTracked_of_eq c _ rfl rfl h
  | expand n =>
    simp only [step, onNodeExpand]
    split
    · exact timersTracked_of_eq c _
        ((onNodeLoad_timers _ n).1.trans (setUncontrolledExpandedKeys_timers c _).1)
        ((onNodeLoad_timers _ n).2.trans (setUncontrolledExpandedKeys_timers c _).2) h
    · exact timersTracked_of_eq c _ (setUncontrolledExpandedKeys_timers c _).1
        (setUncontrolledExpandedKeys_timers c _).2 h
  | load n => exact timersTracked_of_eq c _ (onNodeLoad_timers c n).1 (onNodeLoad_timers c n).2 h
  | loadSettled p f =>
    simp only [step, settleLoad]
    split
    · exact timersTracked_of_eq c _ rfl rfl h
    · exact h
  | expandRefresh ks =>
    exact timersTracked_of_eq c _ (setUncontrolledExpandedKeys_timers c _).1
      (setUncontrolledExpandedKeys_timers c _).2 h

theorem run_timersTracked (u : Util) (inputs : List Input) (c : Component)
    (h : (pendingExpandTimers c).length ≤ 1 ∧
      ∀ t ∈ pendingExpandTimers c, t.id ∈ storedTimerIds c) :
    (pendingExpandTimers (run u c inputs)).length ≤ 1 ∧
      ∀ t ∈ pendingExpandTimers (run u c inputs), t.id ∈ storedTimerIds (run u c inputs) := by
  induction inputs generalizing c with
  | nil => exact h
  | cons i rest ih =>
    simp only [run, List.foldl_cons]
    exact ih (step u c i).comp (step_timersTracked u c i h)

theorem mount_timers (u : Util) (props : Props) : (mount u props).timers = [] := by
  unfold mount Component.receiveProps
  cases getDerivedStateFromProps u props ({} : Component).state <;> rfl

/-- C12: in every state reached from a mounted component by any sequence of
events, at most one hover-expansion timer is pending, and its id is stored in
`delayedDragEnterLogic`.  The deferred step of a drag-enter removes from the
queue every timer whose id was stored in `delayedDragEnterLogic`, under
whatever position, then queues its own 400ms timer and stores its id under the
position path of the target. -/
theorem at_most_one_pending_expand_timer (u : Util) (props : Props) (inputs : List Input) :
    (pendingExpandTimers (run u (mount u props) inputs)).length ≤ 1 ∧
    (∀ t ∈ pendingExpandTimers (run u (mount u props) inputs),
      t.id ∈ storedTimerIds (run u (mount u props) inputs)) ∧
    ∀ (c : Component) (cl : DragEnterClosure),
      (runTask c (Task.dragEnterDeferred cl)).comp.timers =
        c.timers.filter (fun t => t.id ∉ storedTimerIds c) ++
          [{ id := c.nextTimerId, delay := 400, task := Task.dragEnterExpand cl }] ∧
      (runTask c (Task.dragEnterDeferred cl)).comp.delayedDragEnterLogic =
        some (setEntry (c.delayedDragEnterLogic.getD []) cl.node.pos c.nextTimerId) ∧
      (cl.node.pos, c.nextTimerId) ∈
        setEntry (c.delayedDragEnterLogic.getD []) cl.node.pos c.nextTimerId := by
  have hinit : (pendingExpandTimers (mount u props)).length ≤ 1 ∧
      ∀ t ∈ pendingExpandTimers (mount u props), t.id ∈ storedTimerIds (mount u props) := by
    simp [pendingExpandTimers, mount_timers]
  obtain ⟨h1, h2⟩ := run_timersTracked u inputs (mount u props) hinit
  exact ⟨h1, h2, fun c cl =>
    ⟨(runTask_dragEnterDeferred_timers c cl).1, (runTask_dragEnterDeferred_timers c cl).2,
      mem_setEntry _ _ _⟩⟩

/-! ## C13: when `onNodeCheck` completes -/

theorem checkedNodes_of_found (keyEntities : KeyEntities) (keys : List Key) :
    ((keys.map (keyEntitiesGet keyEntities)).filter Lookup.truthy).map Lookup.node =
      (keys.filter (fun key =>
        (entityOf keyEntities key).isSome || decide (key ∈ objectPrototypeNames))).map
        (fun key => (entityOf keyEntities key).map Entity.node) := by
  induction keys with
  | nil => rfl
  | cons key rest ih =>
    have ht := keyEntitiesGet_truthy keyEntities key
    by_cases h : (entityOf keyEntities key).isSome = true ∨ key ∈ objectPrototypeNames
    · have h1 : (keyEntitiesGet keyEntities key).truthy = true := ht.2 h
      have h2 : ((entityOf keyEntities key).isSome ||
          decide (key ∈ objectPrototypeNames)) = true := by
        simpa using h
      simp only [List.map_cons, List.filter_cons, h1, h2, if_true, ih, keyEntitiesGet_node]
    · have h1 : (keyEntitiesGet keyEntities key).truthy = false := by
        cases hx : (keyEntitiesGet keyEntities key).truthy with
        | false => rfl
        | true => exact absurd (ht.1 hx) h
      have h2 : ((entityOf keyEntities key).isSome ||
          decide (key ∈ objectPrototypeNames)) = false := by
        cases hx : ((entityOf keyEntities key).isSome ||
            decide (key ∈ objectPrototypeNames)) with
        | false => rfl
        | true => exact absurd (by simpa using hx) h
      simp only [List.map_cons, List.filter_cons, h1, h2, Bool.false_eq_true, if_false, ih]

/-- C13 fails as stated.  The strict tree is mounted with
`defaultCheckedKeys = ["toString"]`; no entity is stored under `toString`, but
`keyEntities["toString"]` is the function inherited from `Object.prototype`,
whose `node` is `undefined`.  Checking `B` makes the checked list
`["toString", "B"]`, and `onNodeCheck` completes and calls `onCheck` with the
checked nodes `[undefined, B]`.  Outside strict mode the same key is not
skipped: `undefined` is pushed for it. -/
theorem onNodeCheck_completes_on_inherited_key :
    (entityOf (mount sampleUtil strictInheritedProps).state.keyEntities "toString").isSome
      = false ∧
    (mount sampleUtil strictInheritedProps).props.checkStrictly = true ∧
    (mount sampleUtil strictInheritedProps).state.checkedKeys = ["toString"] ∧
    (onNodeCheck sampleUtil (mount sampleUtil strictInheritedProps) rowB true).threw = false ∧
    (onNodeCheck sampleUtil (mount sampleUtil strictInheritedProps) rowB true).effects.map
      (fun e =>
        match e with
        | Effect.onCheck (CheckedObj.strict keys _) info =>
          (keys, info.checkedNodes.map Option.isSome)
        | _ => ([], [])) = [(["toString", "B"], [false, true])] ∧
    (onNodeCheck sampleUtil
      (mount sampleUtil { strictInheritedProps with checkStrictly := false }) rowB true).effects.map
      (fun e =>
        match e with
        | Effect.onCheck (CheckedObj.keys keys) info =>
          (keys, info.checkedNodes.map Option.isSome)
        | _ => ([], [])) = [(["toString", "B"], [false, true])] := by
  decide

/-- C13 as amended.  Outside strict mode `onNodeCheck` always completes, and the
`checkedNodes` it reports have one element, in the order of the keys, for each
conducted checked key that has an entity or is the name of a member of
`Object.prototype`: the node of the entity, or `undefined` when there is no
entity; the other keys are skipped.  In strict mode it completes if and only if
every key of the resulting checked list has an entity or is the name of a member
of `Object.prototype`; when it does not complete, the component is unchanged and
no callback has been called.  For keys that are not such names this is the
original statement: completion iff every key has an entity. -/
theorem onNodeCheck_completion (u : Util) (c : Component) (treeNode : NodeProps)
    (checked : Bool) :
    (c.props.checkStrictly = false →
      (onNodeCheck u c treeNode checked).threw = false ∧
      ∃ info : CheckInfo,
        (onNodeCheck u c treeNode checked).effects =
          (if c.props.onCheck then
            [Effect.onCheck
              (CheckedObj.keys
                (u.conductCheck [treeNode.eventKey] checked c.state.keyEntities
                  (some { checkedKeys := c.state.checkedKeys,
                          halfCheckedKeys := c.state.halfCheckedKeys })).checkedKeys) info]
          else []) ∧
        info.checkedNodes =
          ((u.conductCheck [treeNode.eventKey] checked c.state.keyEntities
            (some { checkedKeys := c.state.checkedKeys,
                    halfCheckedKeys := c.state.halfCheckedKeys })).checkedKeys.filter
            (fun key => (entityOf c.state.keyEntities key).isSome ||
              decide (key ∈ objectPrototypeNames))).map
            (fun key => (entityOf c.state.keyEntities key).map Entity.node)) ∧
    (c.props.checkStrictly = true →
      ((onNodeCheck u c treeNode checked).threw = false ↔
        ∀ key ∈ (if checked then arrAdd c.state.checkedKeys treeNode.eventKey
            else arrDel c.state.checkedKeys treeNode.eventKey),
          (entityOf c.state.keyEntities key).isSome = true ∨ key ∈ objectPrototypeNames) ∧
      ((∀ key ∈ (if checked then arrAdd c.state.checkedKeys treeNode.eventKey
            else arrDel c.state.checkedKeys treeNode.eventKey), key ∉ objectPrototypeNames) →
        ((onNodeCheck u c treeNode checked).threw = false ↔
          ∀ key ∈ (if checked then arrAdd c.state.checkedKeys treeNode.eventKey
              else arrDel c.state.checkedKeys treeNode.eventKey),
            (entityOf c.state.keyEntities key).isSome = true)) ∧
      ((onNodeCheck u c treeNode checked).threw = true →
        (onNodeCheck u c treeNode checked).comp = c ∧
        (onNodeCheck u c treeNode checked).effects = [])) := by
  constructor
  · intro hs
    simp only [onNodeCheck, hs]
    exact ⟨rfl, _, rfl, checkedNodes_of_found _ _⟩
  · intro hs
    have hiff : (onNodeCheck u c treeNode checked).threw = false ↔
        ∀ key ∈ (if checked then arrAdd c.state.checkedKeys treeNode.eventKey
            else arrDel c.state.checkedKeys treeNode.eventKey),
          (entityOf c.state.keyEntities key).isSome = true ∨ key ∈ objectPrototypeNames := by
      have hsome := strictCheckedNodes_isSome c.state.keyEntities
        (if checked = true then arrAdd c.state.checkedKeys treeNode.eventKey
          else arrDel c.state.checkedKeys treeNode.eventKey)
      simp only [keyEntitiesGet_truthy] at hsome
      rw [← hsome]
      cases hn : strictCheckedNodes c.state.keyEntities
          (if checked = true then arrAdd c.state.checkedKeys treeNode.eventKey
            else arrDel c.state.checkedKeys treeNode.eventKey) with
      | none =>
        simp only [onNodeCheck, hs, if_true, hn]
        simp
      | some nodes =>
        simp only [onNodeCheck, hs, if_true, hn]
        simp
    refine ⟨hiff, ?_, ?_⟩
    · intro hplain
      rw [hiff]
      constructor
      · intro h key hkey
        rcases h key hkey with h1 | h1
        · exact h1
        · exact absurd h1 (hplain key hkey)
      · intro h key hkey
        exact Or.inl (h key hkey)
    · cases hn : strictCheckedNodes c.state.keyEntities
          (if checked = true then arrAdd c.state.checkedKeys treeNode.eventKey
            else arrDel c.state.checkedKeys treeNode.eventKey) with
      | none =>
        simp only [onNodeCheck, hs, if_true, hn]
        simp
      | some nodes =>
        simp only [onNodeCheck, hs, if_true, hn]
        simp

/-- Witness of C13 as amended: on the strict sample tree, checking a row whose
key `Z` has no entity fails and leaves the component unchanged; unchecking `B`
completes; and with `toString` among the checked keys, checking `B` completes. -/
theorem onNodeCheck_completion_witness :
    (onNodeCheck sampleUtil (mount sampleUtil strictProps) rowZ true).comp =
      mount sampleUtil strictProps ∧
    (onNodeCheck sampleUtil (mount sampleUtil strictProps) rowB false).threw = false ∧
    (onNodeCheck sampleUtil (mount sampleUtil strictInheritedProps) rowB true).threw = false ∧
    (onNodeCheck sampleUtil (mount sampleUtil mirroredCheckProps) rowZ true).threw = false :=
  ⟨(((onNodeCheck_completion sampleUtil (mount sampleUtil strictProps) rowZ true).2
      (by decide)).2.2 (by decide)).1,
   (((onNodeCheck_completion sampleUtil (mount sampleUtil strictProps) rowB false).2
      (by decide)).2.1 (by decide)).2 (by decide),
   (((onNodeCheck_completion sampleUtil (mount sampleUtil strictInheritedProps) rowB true).2
      (by decide)).1).2 (by decide),
   ((onNodeCheck_completion sampleUtil (mount sampleUtil mirroredCheckProps) rowZ true).1
      (by decide)).1⟩

end Tree
